import Mathlib

/-!
Shallow embedding of the waltio-metrics core (`parseTransactions` and
`calculateValuations` from `src/parseTransactions.ts` / `src/valuation.ts`,
together with their helper functions) and proofs about it.

Modelling conventions:
* JavaScript numbers are modelled as `ℚ` (exact arithmetic).  Division is
  Lean's total division on `ℚ` (so `x / 0 = 0`); wherever the source can
  divide by zero (JS yields `Infinity`/`NaN`) the theorems below only use
  the *definedness* of the result, never its value.
* `Record<string, T>` objects used as insertion-ordered maps (`Object.keys`
  / `Object.values` iterate insertion order) are modelled as association
  lists `List (String × T)` with lookup of the first matching key,
  in-place value update, and append-on-new-key insertion.
* JS truthiness tests on optional numbers/strings (`if (tx.amountSent)`)
  are modelled by `getTruthyQ` / `getTruthyS`: `0`, `""` and `undefined`
  are all falsy.
* Date strings `"DD/MM/YYYY HH:MM:SS"` are modelled by their parsed
  components (`WDate`); the source only ever consumes a date through
  `parseDate(d).getTime()`, which we embed as a strictly monotone integer
  encoding of the components (order- and equality-isomorphic to
  `getTime()` for in-range calendar components).
* Transaction fields the core never reads (platform, description,
  timeZone, address, hashes, ids) are omitted from the record.
-/

/-- Insertion-ordered string-keyed map, as the JS objects used by the source. -/
abbrev OMap (α : Type) : Type := List (String × α)

/-- `m[k]` on a JS object: value of the first (unique) entry with key `k`. -/
def omLookup {α : Type} (m : OMap α) (k : String) : Option α :=
  (m.find? (fun p => p.1 == k)).map (fun p => p.2)

/-- `k in m`: key presence test. -/
def omHas {α : Type} (m : OMap α) (k : String) : Bool :=
  (m.find? (fun p => p.1 == k)).isSome

/-- In-place mutation `m[k] = f(m[k])` of an existing entry (keys unchanged). -/
def omModify {α : Type} (m : OMap α) (k : String) (f : α → α) : OMap α :=
  m.map (fun p => if p.1 == k then (p.1, f p.2) else p)

/-- JS object assignment `m[k] = v`: overwrite in place if the key exists,
otherwise append a new entry at the end. -/
def omSet {α : Type} (m : OMap α) (k : String) (v : α) : OMap α :=
  if omHas m k then m.map (fun p => if p.1 == k then (p.1, v) else p)
  else m ++ [(k, v)]

/-- JS truthiness of an optional number: `undefined` and `0` are falsy. -/
def getTruthyQ (o : Option ℚ) : Option ℚ :=
  match o with
  | some v => if v = 0 then none else some v
  | none => none

/-- JS truthiness of an optional string: `undefined` and `""` are falsy. -/
def getTruthyS (o : Option String) : Option String :=
  match o with
  | some s => if s = "" then none else some s
  | none => none

/-- Parsed components of a Waltio date string `"DD/MM/YYYY HH:MM:SS"`. -/
structure WDate where
  day : Nat
  month : Nat
  year : Nat
  hour : Nat
  minute : Nat
  second : Nat
deriving DecidableEq, Repr

/-- Embeds `parseDate(dateString).getTime()` from the source: a strictly
monotone numeric encoding of the date components (the source only compares
these values, so any order/equality-isomorphic encoding is faithful). -/
def parseDate (d : WDate) : Nat :=
  ((((d.year * 13 + d.month) * 32 + d.day) * 25 + d.hour) * 61 + d.minute) * 61
    + d.second

/-- Transaction type: `"Échange" | "Dépôt" | "Retrait"`. -/
inductive TxType where
  | echange : TxType
  | depot : TxType
  | retrait : TxType
deriving DecidableEq, Repr

/-- `TransactionFromWaltio`, restricted to the fields the core reads. -/
structure Tx where
  type : TxType
  date : WDate
  amountReceived : Option ℚ
  tokenReceived : Option String
  amountSent : Option ℚ
  tokenSent : Option String
  fees : Option ℚ
  tokenFees : Option String
  label : String
  priceTokenSent : Option ℚ
  priceTokenReceived : Option ℚ
  priceTokenFees : Option ℚ
deriving DecidableEq, Repr

/-- One pricing scenario from the configuration. -/
structure ScenarioCfg where
  description : String
  prices : OMap ℚ
deriving DecidableEq, Repr

/-- The configuration object (`src/config.ts`), passed explicitly. -/
structure Config where
  fiatTokens : List String
  tokenAliases : OMap (List String)
  expectedQuantities : OMap ℚ
  groups : OMap (List String)
  scenarios : OMap ScenarioCfg
deriving DecidableEq, Repr

/-- `resolveTokenAlias`: first alias-table entry whose alias list contains
the token wins; otherwise the token is its own canonical form. -/
def resolveTokenAlias (cfg : Config) (token : String) : String :=
  match cfg.tokenAliases.find? (fun p => p.2.contains token) with
  | some p => p.1
  | none => token

/-- `[...new Set([x, ...l])]`: dedup keeping first occurrences, in order. -/
def jsSetOfList (seen : List String) : List String → List String
  | [] => []
  | a :: l =>
      if seen.contains a then jsSetOfList seen l
      else a :: jsSetOfList (a :: seen) l

/-- `getTokenAliases`: `{canonical, ...aliases}` for the group the token
belongs to (first matching entry), or `{token}` if untracked. -/
def getTokenAliases (cfg : Config) (token : String) : List String :=
  match cfg.tokenAliases.find? (fun p => p.1 == token || p.2.contains token) with
  | some p => jsSetOfList [] (p.1 :: p.2)
  | none => [token]

/-- `isFiatInvestmentTransaction`: exchange sending a fiat token, or a
deposit labelled `"Achat de crypto"`. -/
def isFiatInvestmentTransaction (cfg : Config) (tx : Tx) : Bool :=
  (tx.type == TxType.echange &&
    (match getTruthyS tx.tokenSent with
     | some t => cfg.fiatTokens.contains t
     | none => false)) ||
  (tx.type == TxType.depot && tx.label == "Achat de crypto")

/-- `isRelevantInvestmentTransaction`: any exchange, or a deposit labelled
`"Achat de crypto"`. -/
def isRelevantInvestmentTransaction (tx : Tx) : Bool :=
  tx.type == TxType.echange ||
  (tx.type == TxType.depot && tx.label == "Achat de crypto")

/-- `QuantityData`. -/
structure QuantityData where
  computed : ℚ
  expected : Option ℚ
  delta : Option ℚ
  deltaPercent : Option ℚ
deriving DecidableEq, Repr

/-- `unitPrice` pair on a token. -/
structure UnitPriceData where
  computed : ℚ
  expected : Option ℚ
deriving DecidableEq, Repr

/-- One element of `TokenData.historic`. -/
structure HistoricEntry where
  date : WDate
  quantity : ℚ
  totalBuy : ℚ
  totalBuyDelta : ℚ
  totalSell : ℚ
  totalSellDelta : ℚ
  cashIn : ℚ
  cashInDelta : ℚ
  cashOut : ℚ
  cashOutDelta : ℚ
  pnlRealized : ℚ
  unitPrice : ℚ
  transaction : Tx
deriving DecidableEq, Repr

/-- `TokenData`. -/
structure TokenData where
  aliases : List String
  quantity : QuantityData
  cashIn : ℚ
  cashOut : ℚ
  totalBuy : ℚ
  totalSell : ℚ
  pnlRealized : ℚ
  unitPrice : UnitPriceData
  historic : List HistoricEntry
deriving DecidableEq, Repr

/-- One element of `GroupData.historic`. -/
structure GroupHistoricEntry where
  date : WDate
  cashIn : ℚ
  cashOut : ℚ
  totalBuy : ℚ
  totalSell : ℚ
  pnlRealized : ℚ
  transaction : Tx
deriving DecidableEq, Repr

/-- `GroupData`. -/
structure GroupData where
  tokens : List String
  cashIn : ℚ
  cashOut : ℚ
  totalBuy : ℚ
  totalSell : ℚ
  pnlRealized : ℚ
  historic : List GroupHistoricEntry
deriving DecidableEq, Repr

/-- `Result.overview`. -/
structure Overview where
  cashIn : ℚ
  cashOut : ℚ
  fees : ℚ
deriving DecidableEq, Repr

/-- `Result`. -/
structure Result where
  overview : Overview
  groups : OMap GroupData
  tokens : OMap TokenData
deriving DecidableEq, Repr

/-- The zeroed `TokenData` literal created by the token-initialization
helper of the source, with `quantity.expected` and `unitPrice.expected`
seeded from `config.expectedQuantities`. -/
def freshTokenData (cfg : Config) (resolvedToken : String) : TokenData :=
  let expectedQuantity := omLookup cfg.expectedQuantities resolvedToken
  { aliases := getTokenAliases cfg resolvedToken
    quantity :=
      { computed := 0
        expected := expectedQuantity
        delta := none
        deltaPercent := none }
    cashIn := 0
    cashOut := 0
    totalBuy := 0
    totalSell := 0
    pnlRealized := 0
    unitPrice :=
      { computed := 0
        expected := if expectedQuantity.isSome then some 0 else none }
    historic := [] }

/-- `initializeTokenData` from the source (name shortened): create a zeroed
`TokenData` under the resolved symbol when absent. -/
def initTokenData (cfg : Config) (tokens : OMap TokenData) (token : String) :
    OMap TokenData :=
  let resolvedToken := resolveTokenAlias cfg token
  if omHas tokens resolvedToken then tokens
  else tokens ++ [(resolvedToken, freshTokenData cfg resolvedToken)]

/-- `calculatePnlAndUnitPrice`: `(pnlRealized, unitPrice.computed,
unitPrice.expected)`. -/
def calculatePnlAndUnitPrice (tokenData : TokenData) : ℚ × ℚ × ℚ :=
  let pnlRealized := tokenData.totalSell - tokenData.totalBuy
  let unitPriceComputed :=
    if pnlRealized > 0 then 0
    else if tokenData.quantity.computed ≠ 0 then
      |pnlRealized| / tokenData.quantity.computed
    else 0
  let unitPriceExpected :=
    if pnlRealized > 0 then 0
    else
      match tokenData.quantity.expected with
      | some e => if e ≠ 0 then |pnlRealized| / e else 0
      | none => 0
  (pnlRealized, unitPriceComputed, unitPriceExpected)

/-- `addHistoricEntry`: append the post-update snapshot of `tokenData`, with
deltas against the previous entry (`0` baseline if none). -/
def addHistoricEntry (tokenData : TokenData) (date : WDate) (tx : Tx) :
    TokenData :=
  let r := calculatePnlAndUnitPrice tokenData
  let lastCashIn := ((tokenData.historic.getLast?).map (fun e => e.cashIn)).getD 0
  let lastCashOut := ((tokenData.historic.getLast?).map (fun e => e.cashOut)).getD 0
  let lastTotalBuy := ((tokenData.historic.getLast?).map (fun e => e.totalBuy)).getD 0
  let lastTotalSell := ((tokenData.historic.getLast?).map (fun e => e.totalSell)).getD 0
  { tokenData with
      historic := tokenData.historic ++ [
        { date := date
          quantity := tokenData.quantity.computed
          totalBuy := tokenData.totalBuy
          totalBuyDelta := tokenData.totalBuy - lastTotalBuy
          totalSell := tokenData.totalSell
          totalSellDelta := tokenData.totalSell - lastTotalSell
          cashIn := tokenData.cashIn
          cashInDelta := tokenData.cashIn - lastCashIn
          cashOut := tokenData.cashOut
          cashOutDelta := tokenData.cashOut - lastCashOut
          pnlRealized := r.1
          unitPrice := r.2.1
          transaction := tx }] }

/-- `updateInvestmentData`: on a full received leg (truthy amount, price and
token), add `amountReceived × priceTokenReceived` to `totalBuy` of the
resolved received token, and also to `cashIn` when the transaction is a
fiat investment. -/
def updateInvestmentData (cfg : Config) (tx : Tx) (tokens : OMap TokenData) :
    OMap TokenData :=
  match getTruthyQ tx.amountReceived, getTruthyQ tx.priceTokenReceived,
      getTruthyS tx.tokenReceived with
  | some amountReceived, some priceTokenReceived, some tokenReceived0 =>
      let tokenReceived := resolveTokenAlias cfg tokenReceived0
      let totalValueReceived := amountReceived * priceTokenReceived
      let tokens1 := initTokenData cfg tokens tokenReceived
      omModify tokens1 tokenReceived (fun tokenData =>
        let tokenData1 := { tokenData with
          totalBuy := tokenData.totalBuy + totalValueReceived }
        if isFiatInvestmentTransaction cfg tx then
          { tokenData1 with
              cashIn := tokenData1.cashIn + amountReceived * priceTokenReceived }
        else tokenData1)
  | _, _, _ => tokens

/-- `updateSellData`: on an exchange with a full sent leg, add
`amountSent × priceTokenSent` to `totalSell` of the resolved sent token. -/
def updateSellData (cfg : Config) (tx : Tx) (tokens : OMap TokenData) :
    OMap TokenData :=
  if tx.type == TxType.echange then
    match getTruthyQ tx.amountSent, getTruthyQ tx.priceTokenSent,
        getTruthyS tx.tokenSent with
    | some amountSent, some priceTokenSent, some tokenSent0 =>
        let tokenSent := resolveTokenAlias cfg tokenSent0
        let totalValueSent := amountSent * priceTokenSent
        let tokens1 := initTokenData cfg tokens tokenSent
        omModify tokens1 tokenSent (fun tokenData =>
          { tokenData with totalSell := tokenData.totalSell + totalValueSent })
    | _, _, _ => tokens
  else tokens

/-- `updateCashOutData`: on an exchange whose full received leg lands on a
fiat token (raw symbol) and whose sent leg is full, add
`amountSent × priceTokenSent` to `cashOut` of the resolved sent token. -/
def updateCashOutData (cfg : Config) (tx : Tx) (tokens : OMap TokenData) :
    OMap TokenData :=
  if tx.type == TxType.echange then
    match getTruthyQ tx.amountReceived, getTruthyQ tx.priceTokenReceived,
        getTruthyS tx.tokenReceived, getTruthyS tx.tokenSent,
        getTruthyQ tx.amountSent, getTruthyQ tx.priceTokenSent with
    | some _, some _, some tokenReceived0, some tokenSent0,
        some amountSent, some priceTokenSent =>
        if cfg.fiatTokens.contains tokenReceived0 then
          let tokenSent := resolveTokenAlias cfg tokenSent0
          let totalValueSent := amountSent * priceTokenSent
          let tokens1 := initTokenData cfg tokens tokenSent
          omModify tokens1 tokenSent (fun tokenData =>
            { tokenData with cashOut := tokenData.cashOut + totalValueSent })
        else tokens
    | _, _, _, _, _, _ => tokens
  else tokens

/-- `updateFeesData`: on truthy `fees` and `priceTokenFees`, add
`fees × priceTokenFees` to the running total-fees accumulator. -/
def updateFeesData (tx : Tx) (totalFees : ℚ) : ℚ :=
  match getTruthyQ tx.fees, getTruthyQ tx.priceTokenFees with
  | some fees, some priceTokenFees => totalFees + fees * priceTokenFees
  | _, _ => totalFees

/-- State threaded through `updateQuantityData`: the token map, the JS `Set`
of updated token symbols (insertion order, deduplicated) and the
`quantityChanged` flag. -/
structure QuantityUpdateState where
  tokens : OMap TokenData
  updatedTokens : List String
  quantityChanged : Bool

/-- `Set.add`: append the symbol unless already present. -/
def jsSetAdd (s : List String) (token : String) : List String :=
  if s.contains token then s else s ++ [token]

/-- One leg of `updateQuantityData`: on truthy amount and token, resolve the
alias, initialize the token, and add `sign × amount` to its computed
quantity. -/
def quantityLeg (cfg : Config) (amount : Option ℚ) (token : Option String)
    (sign : ℚ) (st : QuantityUpdateState) : QuantityUpdateState :=
  match getTruthyQ amount, getTruthyS token with
  | some a, some t0 =>
      let t := resolveTokenAlias cfg t0
      let tokens1 := initTokenData cfg st.tokens t
      { tokens := omModify tokens1 t (fun tokenData =>
          { tokenData with quantity :=
              { tokenData.quantity with
                  computed := tokenData.quantity.computed + sign * a } })
        updatedTokens := jsSetAdd st.updatedTokens t
        quantityChanged := true }
  | _, _ => st

/-- `updateQuantityData`: apply the received (`+amountReceived`), sent
(`−amountSent`) and fees (`−fees`) quantity legs, then, if any quantity
changed, append one historic entry per updated token (Set iteration
order). -/
def updateQuantityData (cfg : Config) (tx : Tx) (tokens : OMap TokenData)
    (date : WDate) : OMap TokenData :=
  let st0 : QuantityUpdateState :=
    { tokens := tokens, updatedTokens := [], quantityChanged := false }
  let st1 := quantityLeg cfg tx.amountReceived tx.tokenReceived 1 st0
  let st2 := quantityLeg cfg tx.amountSent tx.tokenSent (-1) st1
  let st3 := quantityLeg cfg tx.fees tx.tokenFees (-1) st2
  if st3.quantityChanged then
    st3.updatedTokens.foldl (fun tks token =>
      omModify tks token (fun tokenData => addHistoricEntry tokenData date tx))
      st3.tokens
  else st3.tokens

/-- Fold state of the main transaction loop of `parseTransactions`. -/
structure ParseState where
  tokens : OMap TokenData
  totalInvestedFiat : ℚ
  totalFees : ℚ
deriving DecidableEq, Repr

/-- The body of the `transactions.forEach` loop in `parseTransactions`. -/
def applyTransaction (cfg : Config) (st : ParseState) (tx : Tx) : ParseState :=
  let isFiatInvestment := isFiatInvestmentTransaction cfg tx
  let isRelevantInvestment := isRelevantInvestmentTransaction tx
  let totalInvestedFiat :=
    match getTruthyQ tx.amountSent, getTruthyQ tx.priceTokenSent with
    | some amountSent, some priceTokenSent =>
        if isFiatInvestment then
          st.totalInvestedFiat + amountSent * priceTokenSent
        else st.totalInvestedFiat
    | _, _ => st.totalInvestedFiat
  let tokens1 :=
    if isRelevantInvestment then updateInvestmentData cfg tx st.tokens
    else st.tokens
  let tokens2 :=
    if tx.type == TxType.echange then
      updateCashOutData cfg tx (updateSellData cfg tx tokens1)
    else tokens1
  let tokens3 := updateQuantityData cfg tx tokens2 tx.date
  { tokens := tokens3
    totalInvestedFiat := totalInvestedFiat
    totalFees := updateFeesData tx st.totalFees }

/-- The per-token finalization pass of `parseTransactions`: store
`pnlRealized` and `unitPrice` from `calculatePnlAndUnitPrice`, then
`delta`/`deltaPercent` from the expected quantity (the source divides by
`expected` even when it is `0`; JS then yields an infinite/NaN number,
embedded here by the total division of `ℚ`). -/
def finalizeTokenData (tokenData : TokenData) : TokenData :=
  let r := calculatePnlAndUnitPrice tokenData
  let delta :=
    match tokenData.quantity.expected with
    | some e => some (tokenData.quantity.computed - e)
    | none => none
  let deltaPercent :=
    match tokenData.quantity.expected with
    | some e => some ((tokenData.quantity.computed - e) / e * 100)
    | none => none
  { tokenData with
      pnlRealized := r.1
      unitPrice := { computed := r.2.1, expected := some r.2.2 }
      quantity := { tokenData.quantity with
        delta := delta
        deltaPercent := deltaPercent } }

/-- The body of the `tokensInGroup.forEach` loop of the group-aggregate
pass: resolve the configured member name; when present in the ledger,
record it in `tokens` and add its totals. -/
def groupAggStep (cfg : Config) (tokens : OMap TokenData)
    (groupData : GroupData) (tokenName : String) : GroupData :=
  let resolvedTokenName := resolveTokenAlias cfg tokenName
  match omLookup tokens resolvedTokenName with
  | some token =>
      { groupData with
          tokens := groupData.tokens ++ [resolvedTokenName]
          cashIn := groupData.cashIn + token.cashIn
          cashOut := groupData.cashOut + token.cashOut
          totalBuy := groupData.totalBuy + token.totalBuy
          totalSell := groupData.totalSell + token.totalSell
          pnlRealized := groupData.pnlRealized + token.pnlRealized }
  | none => groupData

/-- The group-aggregate pass of `parseTransactions` for one group: fold over
the configured member names, starting from the zeroed group. -/
def buildGroupAggregate (cfg : Config) (tokens : OMap TokenData)
    (tokensInGroup : List String) : GroupData :=
  tokensInGroup.foldl (groupAggStep cfg tokens)
    { tokens := []
      cashIn := 0
      cashOut := 0
      totalBuy := 0
      totalSell := 0
      pnlRealized := 0
      historic := [] }

/-- Stable insertion into a list sorted by `parseDate` of `.date`: the new
element (which precedes the list's elements in the original input) goes
before the first element whose key is `≥` its own, so equal-key elements
keep their original relative order. -/
def sortInsertEntry (e : HistoricEntry) : List HistoricEntry → List HistoricEntry
  | [] => [e]
  | x :: xs =>
      if parseDate x.date < parseDate e.date then x :: sortInsertEntry e xs
      else e :: x :: xs

/-- Stable sort by ascending `parseDate(entry.date)`, embedding the
JS `Array.prototype.sort` call (required stable) with comparator
`(a, b) => parseDate(a.date).getTime() - parseDate(b.date).getTime()`. -/
def sortEntriesByDate : List HistoricEntry → List HistoricEntry
  | [] => []
  | e :: es => sortInsertEntry e (sortEntriesByDate es)

/-- The body of the `groupHistoricEntriesSorted.forEach` loop: append one
group historic point, adding the source entry's deltas onto the previous
point (`0` baseline if none). -/
def groupHistStep (historic : List GroupHistoricEntry) (entry : HistoricEntry) :
    List GroupHistoricEntry :=
  let lastCashIn := ((historic.getLast?).map (fun e => e.cashIn)).getD 0
  let lastCashOut := ((historic.getLast?).map (fun e => e.cashOut)).getD 0
  let lastTotalBuy := ((historic.getLast?).map (fun e => e.totalBuy)).getD 0
  let lastTotalSell := ((historic.getLast?).map (fun e => e.totalSell)).getD 0
  let newTotalBuy := lastTotalBuy + entry.totalBuyDelta
  let newTotalSell := lastTotalSell + entry.totalSellDelta
  historic ++ [
    { date := entry.date
      cashIn := lastCashIn + entry.cashInDelta
      cashOut := lastCashOut + entry.cashOutDelta
      totalBuy := newTotalBuy
      totalSell := newTotalSell
      pnlRealized := newTotalSell - newTotalBuy
      transaction := entry.transaction }]

/-- The entry-collection step of the group-historic pass, as the source
performs it: each configured member name is looked up *raw* (no alias
resolution), members absent under that raw name contribute nothing. -/
def collectGroupEntries (tokens : OMap TokenData) (tokensInGroup : List String) :
    List HistoricEntry :=
  tokensInGroup.flatMap (fun tokenName =>
    match omLookup tokens tokenName with
    | some t => t.historic
    | none => [])

/-- The group-historic pass of `parseTransactions` for one group: collect
the member entries raw, sort them by date, and scan with
`groupHistStep`. -/
def buildGroupHistoric (tokens : OMap TokenData) (tokensInGroup : List String) :
    List GroupHistoricEntry :=
  let groupHistoricEntriesSorted :=
    sortEntriesByDate (collectGroupEntries tokens tokensInGroup)
  groupHistoricEntriesSorted.foldl groupHistStep []

/-- `parseTransactions`: fold the transactions through the ledger, recompute
the overview totals from the finished tokens, finalize each token, then
build the group aggregates and group historics. -/
def parseTransactions (cfg : Config) (transactions : List Tx) : Result :=
  let st := transactions.foldl (applyTransaction cfg)
    { tokens := [], totalInvestedFiat := 0, totalFees := 0 }
  let totalInvestedFiat := (st.tokens.map (fun p => p.2.cashIn)).sum
  let totalCashOut := (st.tokens.map (fun p => p.2.cashOut)).sum
  let tokens := st.tokens.map (fun p => (p.1, finalizeTokenData p.2))
  let groups0 := cfg.groups.map (fun p =>
    (p.1, buildGroupAggregate cfg tokens p.2))
  let groups := groups0.map (fun p =>
    (p.1, { p.2 with historic :=
        buildGroupHistoric tokens ((omLookup cfg.groups p.1).getD []) }))
  { overview :=
      { cashIn := totalInvestedFiat
        cashOut := totalCashOut
        fees := st.totalFees }
    groups := groups
    tokens := tokens }

/-- `TokenValuation`. -/
structure TokenValuation where
  computed : ℚ
  expected : Option ℚ
deriving DecidableEq, Repr

/-- `ScenarioValuation`. -/
structure ScenarioValuation where
  scenarioName : String
  scenarioDescription : String
  tokenValuations : OMap TokenValuation
  totalComputed : ℚ
  totalExpected : Option ℚ
deriving DecidableEq, Repr

/-- The body of the per-token loop of `calculateValuations`: tokens with a
price in the scenario contribute `computed × price` to `totalComputed` and,
when their expected quantity is truthy, `expected × price` to
`totalExpected` (restarting from `0` if it was `undefined`); a token with a
falsy expected quantity sets `totalExpected` to `undefined`. -/
def valuationStep (scenario : ScenarioCfg) (acc : ScenarioValuation)
    (p : String × TokenData) : ScenarioValuation :=
  let tokenData := p.2
  match omLookup scenario.prices p.1 with
  | some tokenPrice =>
      let computedValue := tokenData.quantity.computed * tokenPrice
      let expectedValue :=
        match getTruthyQ tokenData.quantity.expected with
        | some e => some (e * tokenPrice)
        | none => none
      { acc with
          totalComputed := acc.totalComputed + computedValue
          totalExpected :=
            match expectedValue with
            | some ev => some ((acc.totalExpected.getD 0) + ev)
            | none => none
          tokenValuations := omSet acc.tokenValuations p.1
            ⟨computedValue, expectedValue⟩ }
  | none => acc

/-- The valuation of one scenario: fold `valuationStep` over the tokens map
in insertion order, starting from empty valuations and zero totals. -/
def scenarioValuation (scenarioName : String) (scenario : ScenarioCfg)
    (tokens : OMap TokenData) : ScenarioValuation :=
  tokens.foldl (valuationStep scenario)
    { scenarioName := scenarioName
      scenarioDescription := scenario.description
      tokenValuations := []
      totalComputed := 0
      totalExpected := some 0 }

/-- `calculateValuations`: one `ScenarioValuation` per configured scenario,
in configuration order. -/
def calculateValuations (cfg : Config) (result : Result) : List ScenarioValuation :=
  cfg.scenarios.map (fun p => scenarioValuation p.1 p.2 result.tokens)

/-! ### Generic facts about the ordered-map operations -/

/-- All entries of a map satisfy a property of key and value. -/
def MapProp {α : Type} (P : String → α → Prop) (m : OMap α) : Prop :=
  ∀ p ∈ m, P p.1 p.2

theorem mapProp_nil {α : Type} (P : String → α → Prop) : MapProp P [] := by
  intro p hp
  cases hp

theorem mapProp_append {α : Type} {P : String → α → Prop} {m m' : OMap α}
    (h : MapProp P m) (h' : MapProp P m') : MapProp P (m ++ m') := by
  intro p hp
  rcases List.mem_append.1 hp with hp | hp
  · exact h p hp
  · exact h' p hp

theorem mapProp_omModify {α : Type} {P : String → α → Prop} {m : OMap α}
    {k : String} {f : α → α} (hm : MapProp P m)
    (hf : ∀ v, P k v → P k (f v)) : MapProp P (omModify m k f) := by
  intro p hp
  rcases List.mem_map.1 hp with ⟨q, hq, rfl⟩
  by_cases h : q.1 = k
  · subst h
    simp only [beq_self_eq_true, if_pos]
    exact hf q.2 (hm q hq)
  · have hb : (q.1 == k) = false := by simpa using h
    simp only [hb, Bool.false_eq_true, if_false]
    exact hm q hq

theorem mapProp_ite {α : Type} {P : String → α → Prop} {m m' : OMap α}
    {c : Prop} [Decidable c] (h : MapProp P m) (h' : MapProp P m') :
    MapProp P (if c then m else m') := by
  by_cases hc : c
  · simpa [hc] using h
  · simpa [hc] using h'

/-- Keys are untouched by `omModify`. -/
theorem keys_omModify {α : Type} {m : OMap α} {k : String} {f : α → α} :
    (omModify m k f).map Prod.fst = m.map Prod.fst := by
  unfold omModify
  rw [List.map_map]
  apply List.map_congr_left
  intro p _
  by_cases h : p.1 = k <;> simp [h]

theorem omLookup_append_right {α : Type} {m m' : OMap α} {k : String}
    (h : omLookup m k = none) :
    omLookup (m ++ m') k = omLookup m' k := by
  unfold omLookup at h ⊢
  rw [List.find?_append]
  cases hf : List.find? (fun p => p.1 == k) m with
  | none => simp
  | some p => rw [hf] at h; simp at h

theorem omLookup_eq_none_iff {α : Type} {m : OMap α} {k : String} :
    omLookup m k = none ↔ omHas m k = false := by
  unfold omLookup omHas
  cases List.find? (fun p => p.1 == k) m <;> simp

theorem mapProp_initTokenData {P : String → TokenData → Prop} {cfg : Config}
    {m : OMap TokenData} {t : String} (hm : MapProp P m)
    (hfresh : ∀ s, P s (freshTokenData cfg s)) :
    MapProp P (initTokenData cfg m t) := by
  unfold initTokenData
  by_cases h : omHas m (resolveTokenAlias cfg t)
  · simpa [h] using hm
  · simp only [h, Bool.false_eq_true, if_false]
    refine mapProp_append hm ?_
    intro p hp
    simp only [List.mem_singleton] at hp
    subst hp
    exact hfresh _

/-! ### The invariant `pnlRealized = totalSell − totalBuy` on historic entries -/

/-- `pnlRealized = totalSell − totalBuy` inside one historic entry. -/
def EntryPnlOk (e : HistoricEntry) : Prop :=
  e.pnlRealized = e.totalSell - e.totalBuy

/-- All historic entries of all tokens satisfy `EntryPnlOk`. -/
def HistOk (m : OMap TokenData) : Prop :=
  MapProp (fun _ v => ∀ e ∈ v.historic, EntryPnlOk e) m

theorem entriesProp_of_hist_eq {Q : HistoricEntry → Prop} {v w : TokenData}
    (h : w.historic = v.historic) (hv : ∀ e ∈ v.historic, Q e) :
    ∀ e ∈ w.historic, Q e := by
  intro e he
  rw [h] at he
  exact hv e he

theorem entryPnlOk_addHistoricEntry {v : TokenData} {d : WDate} {tx : Tx}
    (hv : ∀ e ∈ v.historic, EntryPnlOk e) :
    ∀ e ∈ (addHistoricEntry v d tx).historic, EntryPnlOk e := by
  intro e he
  unfold addHistoricEntry at he
  simp only at he
  rcases List.mem_append.1 he with he | he
  · exact hv e he
  · simp only [List.mem_singleton] at he
    subst he
    simp [EntryPnlOk, calculatePnlAndUnitPrice]

theorem histOk_updateInvestmentData {cfg : Config} {tx : Tx}
    {m : OMap TokenData} (hm : HistOk m) :
    HistOk (updateInvestmentData cfg tx m) := by
  unfold updateInvestmentData
  split
  · refine mapProp_omModify (mapProp_initTokenData hm ?_) ?_
    · intro s
      intro e he
      cases he
    · intro v hv
      refine entriesProp_of_hist_eq ?_ hv
      split <;> rfl
  · exact hm

theorem histOk_updateSellData {cfg : Config} {tx : Tx}
    {m : OMap TokenData} (hm : HistOk m) :
    HistOk (updateSellData cfg tx m) := by
  unfold updateSellData
  split
  · split
    · refine mapProp_omModify (mapProp_initTokenData hm ?_) ?_
      · intro s
        intro e he
        cases he
      · intro v hv
        exact entriesProp_of_hist_eq rfl hv
    · exact hm
  · exact hm

theorem histOk_updateCashOutData {cfg : Config} {tx : Tx}
    {m : OMap TokenData} (hm : HistOk m) :
    HistOk (updateCashOutData cfg tx m) := by
  unfold updateCashOutData
  split
  · split
    · split
      · refine mapProp_omModify (mapProp_initTokenData hm ?_) ?_
        · intro s
          intro e he
          cases he
        · intro v hv
          exact entriesProp_of_hist_eq rfl hv
      · exact hm
    · exact hm
  · exact hm

theorem histOk_quantityLeg {cfg : Config} {a : Option ℚ} {t : Option String}
    {sgn : ℚ} {st : QuantityUpdateState} (hm : HistOk st.tokens) :
    HistOk (quantityLeg cfg a t sgn st).tokens := by
  unfold quantityLeg
  split
  · dsimp only
    refine mapProp_omModify (mapProp_initTokenData hm ?_) ?_
    · intro s
      intro e he
      cases he
    · intro v hv
      exact entriesProp_of_hist_eq rfl hv
  · exact hm

theorem histOk_foldl_addEntries {tokens : OMap TokenData} {l : List String}
    {d : WDate} {tx : Tx} (h : HistOk tokens) :
    HistOk (l.foldl (fun tks token =>
      omModify tks token (fun v => addHistoricEntry v d tx)) tokens) := by
  induction l generalizing tokens with
  | nil => exact h
  | cons a l ih =>
      exact ih (mapProp_omModify h (fun v hv => entryPnlOk_addHistoricEntry hv))

theorem histOk_updateQuantityData {cfg : Config} {tx : Tx}
    {m : OMap TokenData} {d : WDate} (hm : HistOk m) :
    HistOk (updateQuantityData cfg tx m d) := by
  unfold updateQuantityData
  dsimp only
  have h3 : HistOk (quantityLeg cfg tx.fees tx.tokenFees (-1)
      (quantityLeg cfg tx.amountSent tx.tokenSent (-1)
        (quantityLeg cfg tx.amountReceived tx.tokenReceived 1
          ⟨m, [], false⟩))).tokens :=
    histOk_quantityLeg (histOk_quantityLeg (histOk_quantityLeg hm))
  split
  · exact histOk_foldl_addEntries h3
  · exact h3

theorem histOk_applyTransaction {cfg : Config} {st : ParseState} {tx : Tx}
    (hm : HistOk st.tokens) : HistOk (applyTransaction cfg st tx).tokens := by
  unfold applyTransaction
  dsimp only
  apply histOk_updateQuantityData
  split
  · apply histOk_updateCashOutData
    apply histOk_updateSellData
    split
    · exact histOk_updateInvestmentData hm
    · exact hm
  · split
    · exact histOk_updateInvestmentData hm
    · exact hm

theorem histOk_foldTx {cfg : Config} {txs : List Tx} {st : ParseState}
    (hm : HistOk st.tokens) :
    HistOk (txs.foldl (applyTransaction cfg) st).tokens := by
  induction txs generalizing st with
  | nil => exact hm
  | cons tx txs ih => exact ih (histOk_applyTransaction hm)

theorem mapProp_valueMap {α : Type} {P : String → α → Prop} {m : OMap α}
    {f : α → α} (hm : MapProp P m) (hf : ∀ k v, P k v → P k (f v)) :
    MapProp P (m.map (fun p => (p.1, f p.2))) := by
  intro p hp
  rcases List.mem_map.1 hp with ⟨q, hq, rfl⟩
  exact hf q.1 q.2 (hm q hq)

/-- Every token of the final result has `pnlRealized = totalSell − totalBuy`,
and so does every one of its historic entries. -/
theorem parseTokens_pnl (cfg : Config) (txs : List Tx) :
    ∀ p ∈ (parseTransactions cfg txs).tokens,
      p.2.pnlRealized = p.2.totalSell - p.2.totalBuy ∧
      ∀ e ∈ p.2.historic, EntryPnlOk e := by
  have hfold : HistOk ((txs.foldl (applyTransaction cfg)
      ⟨[], 0, 0⟩).tokens) := histOk_foldTx (mapProp_nil _)
  unfold parseTransactions
  dsimp only
  intro p hp
  rcases List.mem_map.1 hp with ⟨q, hq, rfl⟩
  constructor
  · simp [finalizeTokenData, calculatePnlAndUnitPrice]
  · exact entriesProp_of_hist_eq (by simp [finalizeTokenData]) (hfold q hq)

/-! ### Group aggregates as sums over the recorded member list -/

/-- Numeric field of a token looked up in the map, `0` when absent. -/
def lookupQ (tokens : OMap TokenData) (f : TokenData → ℚ) (t : String) : ℚ :=
  ((omLookup tokens t).map f).getD 0

/-- The running group aggregate equals, field by field, the sum of that
field over the member tokens recorded so far, and every recorded member is
present in the ledger. -/
def GroupAggInv (tokens : OMap TokenData) (gd : GroupData) : Prop :=
  gd.cashIn = (gd.tokens.map (lookupQ tokens (fun v => v.cashIn))).sum ∧
  gd.cashOut = (gd.tokens.map (lookupQ tokens (fun v => v.cashOut))).sum ∧
  gd.totalBuy = (gd.tokens.map (lookupQ tokens (fun v => v.totalBuy))).sum ∧
  gd.totalSell = (gd.tokens.map (lookupQ tokens (fun v => v.totalSell))).sum ∧
  gd.pnlRealized = (gd.tokens.map (lookupQ tokens (fun v => v.pnlRealized))).sum ∧
  ∀ t ∈ gd.tokens, omHas tokens t = true

theorem groupAggInv_step {cfg : Config} {tokens : OMap TokenData}
    {gd : GroupData} {s : String} (h : GroupAggInv tokens gd) :
    GroupAggInv tokens (groupAggStep cfg tokens gd s) := by
  unfold groupAggStep
  dsimp only
  split
  · rename_i token heq
    obtain ⟨h1, h2, h3, h4, h5, h6⟩ := h
    have hval : ∀ f : TokenData → ℚ,
        lookupQ tokens f (resolveTokenAlias cfg s) = f token := by
      intro f
      unfold lookupQ
      rw [heq]
      rfl
    refine ⟨?_, ?_, ?_, ?_, ?_, ?_⟩
    · simp [h1, hval]
    · simp [h2, hval]
    · simp [h3, hval]
    · simp [h4, hval]
    · simp [h5, hval]
    · intro t ht
      rcases List.mem_append.1 ht with ht | ht
      · exact h6 t ht
      · simp only [List.mem_singleton] at ht
        subst ht
        by_contra hno
        have hfalse : omHas tokens (resolveTokenAlias cfg s) = false := by
          cases hcase : omHas tokens (resolveTokenAlias cfg s)
          · rfl
          · exact absurd hcase hno
        rw [← omLookup_eq_none_iff] at hfalse
        rw [hfalse] at heq
        cases heq
  · exact h

theorem groupAggInv_fold {cfg : Config} {tokens : OMap TokenData}
    {l : List String} {gd : GroupData} (h : GroupAggInv tokens gd) :
    GroupAggInv tokens (l.foldl (groupAggStep cfg tokens) gd) := by
  induction l generalizing gd with
  | nil => exact h
  | cons s l ih => exact ih (groupAggInv_step h)

theorem buildGroupAggregate_inv (cfg : Config) (tokens : OMap TokenData)
    (l : List String) : GroupAggInv tokens (buildGroupAggregate cfg tokens l) := by
  unfold buildGroupAggregate
  exact groupAggInv_fold (by refine ⟨rfl, rfl, rfl, rfl, rfl, ?_⟩; intro t ht; cases ht)

theorem omLookup_mem {α : Type} {m : OMap α} {k : String} {v : α}
    (h : omLookup m k = some v) : ∃ p ∈ m, p.1 = k ∧ p.2 = v := by
  unfold omLookup at h
  cases hf : m.find? (fun p => p.1 == k) with
  | none => rw [hf] at h; cases h
  | some p =>
      rw [hf] at h
      have hm := List.mem_of_find?_eq_some hf
      have hk := List.find?_some hf
      refine ⟨p, hm, by simpa using hk, by simpa using h⟩

theorem sum_map_sub {α : Type} (l : List α) (f g : α → ℚ) :
    (l.map (fun x => f x - g x)).sum = (l.map f).sum - (l.map g).sum := by
  induction l with
  | nil => simp
  | cons a l ih =>
      simp only [List.map_cons, List.sum_cons, ih]
      ring

/-- Structure of the groups map of the result: one entry per configured
group, aggregate from `buildGroupAggregate` and historic from
`buildGroupHistoric` (the latter looking the member list up again by group
name). -/
theorem parseTransactions_groups_eq (cfg : Config) (txs : List Tx) :
    (parseTransactions cfg txs).groups =
      cfg.groups.map (fun q => (q.1,
        { buildGroupAggregate cfg (parseTransactions cfg txs).tokens q.2 with
          historic := buildGroupHistoric (parseTransactions cfg txs).tokens
            ((omLookup cfg.groups q.1).getD []) })) := by
  unfold parseTransactions
  dsimp only
  rw [List.map_map]
  rfl

/-- Every point of a group historic has `pnlRealized = totalSell − totalBuy`
by construction of the scan. -/
theorem buildGroupHistoric_pnl (tokens : OMap TokenData) (l : List String) :
    ∀ x ∈ buildGroupHistoric tokens l,
      x.pnlRealized = x.totalSell - x.totalBuy := by
  unfold buildGroupHistoric
  dsimp only
  generalize sortEntriesByDate _ = es
  have key : ∀ (hist : List GroupHistoricEntry),
      (∀ x ∈ hist, x.pnlRealized = x.totalSell - x.totalBuy) →
      ∀ x ∈ es.foldl groupHistStep hist,
        x.pnlRealized = x.totalSell - x.totalBuy := by
    induction es with
    | nil => intro hist h; exact h
    | cons e es ih =>
        intro hist h
        apply ih
        intro x hx
        unfold groupHistStep at hx
        dsimp only at hx
        rcases List.mem_append.1 hx with hx | hx
        · exact h x hx
        · simp only [List.mem_singleton] at hx
          subst hx
          rfl
  intro x hx
  exact key [] (by intro x hx; cases hx) x hx

theorem lookupQ_pnl {tokens : OMap TokenData}
    (htok : ∀ p ∈ tokens, p.2.pnlRealized = p.2.totalSell - p.2.totalBuy)
    (t : String) :
    lookupQ tokens (fun v => v.pnlRealized) t =
      lookupQ tokens (fun v => v.totalSell) t -
        lookupQ tokens (fun v => v.totalBuy) t := by
  unfold lookupQ
  cases hl : omLookup tokens t with
  | none => simp
  | some v =>
      obtain ⟨p, hp, -, hv⟩ := omLookup_mem hl
      subst hv
      simpa using htok p hp

/-- A group aggregate over tokens whose `pnlRealized` is consistent has
`pnlRealized = totalSell − totalBuy` as well. -/
theorem buildGroupAggregate_pnl {cfg : Config} {tokens : OMap TokenData}
    (htok : ∀ p ∈ tokens, p.2.pnlRealized = p.2.totalSell - p.2.totalBuy)
    (l : List String) :
    (buildGroupAggregate cfg tokens l).pnlRealized =
      (buildGroupAggregate cfg tokens l).totalSell -
        (buildGroupAggregate cfg tokens l).totalBuy := by
  obtain ⟨-, -, h3, h4, h5, -⟩ := buildGroupAggregate_inv cfg tokens l
  rw [h3, h4, h5]
  have hcongr : (buildGroupAggregate cfg tokens l).tokens.map
      (lookupQ tokens (fun v => v.pnlRealized)) =
      (buildGroupAggregate cfg tokens l).tokens.map (fun t =>
        lookupQ tokens (fun v => v.totalSell) t -
          lookupQ tokens (fun v => v.totalBuy) t) := by
    apply List.map_congr_left
    intro t _
    exact lookupQ_pnl htok t
  rw [hcongr, sum_map_sub]

/-! ### Shared concrete fixtures for witnesses -/

def wDate1 : WDate := ⟨1, 1, 2024, 10, 0, 0⟩

def wDate2 : WDate := ⟨2, 1, 2024, 10, 0, 0⟩

def scnW : ScenarioCfg := { description := "s", prices := [("BTC", 10)] }

def cfgW : Config :=
  { fiatTokens := ["USD"]
    tokenAliases := [("BTC", ["XBT"])]
    expectedQuantities := [("BTC", 2)]
    groups := [("G", ["BTC"])]
    scenarios := [("S", scnW)] }

/-- Exchange: buy 1 BTC at 100 for 100 USD. -/
def txW1 : Tx :=
  { type := TxType.echange, date := wDate1
    amountReceived := some 1, tokenReceived := some "BTC"
    amountSent := some 100, tokenSent := some "USD"
    fees := none, tokenFees := none, label := ""
    priceTokenSent := some 1, priceTokenReceived := some 100
    priceTokenFees := none }

def txsW : List Tx := [txW1]

/-- C3: for every token, `pnlRealized = totalSell − totalBuy` in every
historic entry and in the final `TokenData`; for every group, the same
equality holds at every group historic point and in the final `GroupData`
aggregate (in exact arithmetic, the accumulated member sum coincides with
the recomputation from the summed totals). -/
theorem claim_C3_pnl_consistency (cfg : Config) (txs : List Tx) :
    (∀ p ∈ (parseTransactions cfg txs).tokens,
        p.2.pnlRealized = p.2.totalSell - p.2.totalBuy ∧
        ∀ e ∈ p.2.historic, e.pnlRealized = e.totalSell - e.totalBuy) ∧
    (∀ g ∈ (parseTransactions cfg txs).groups,
        g.2.pnlRealized = g.2.totalSell - g.2.totalBuy ∧
        ∀ x ∈ g.2.historic, x.pnlRealized = x.totalSell - x.totalBuy) := by
  have htok := parseTokens_pnl cfg txs
  constructor
  · exact htok
  · intro g hg
    rw [parseTransactions_groups_eq] at hg
    rcases List.mem_map.1 hg with ⟨q, hq, rfl⟩
    constructor
    · exact buildGroupAggregate_pnl (fun p hp => (htok p hp).1) q.2
    · intro x hx
      exact buildGroupHistoric_pnl _ _ x hx

/-- Witness for C3: the theorem applied at the concrete one-transaction
portfolio, with the membership hypotheses discharged there. -/
theorem claim_C3_pnl_consistency_witness :
    (∃ p, p ∈ (parseTransactions cfgW txsW).tokens ∧
        p.2.pnlRealized = p.2.totalSell - p.2.totalBuy) ∧
    (∃ g, g ∈ (parseTransactions cfgW txsW).groups ∧
        g.2.pnlRealized = g.2.totalSell - g.2.totalBuy) := by
  have h := claim_C3_pnl_consistency cfgW txsW
  have hne : (parseTransactions cfgW txsW).tokens ≠ [] := by
    simp [parseTransactions, applyTransaction, updateInvestmentData,
      updateSellData, updateCashOutData, updateFeesData, updateQuantityData,
      quantityLeg, initTokenData, freshTokenData, isFiatInvestmentTransaction,
      isRelevantInvestmentTransaction, resolveTokenAlias, getTokenAliases,
      getTruthyQ, getTruthyS, omLookup, omHas, omModify, omSet, jsSetAdd,
      jsSetOfList, addHistoricEntry, calculatePnlAndUnitPrice,
      finalizeTokenData, cfgW, txsW, txW1, wDate1]
  have hgne : (parseTransactions cfgW txsW).groups ≠ [] := by
    rw [parseTransactions_groups_eq]
    simp [cfgW]
  obtain ⟨p, hp⟩ := List.exists_mem_of_ne_nil _ hne
  obtain ⟨g, hg⟩ := List.exists_mem_of_ne_nil _ hgne
  exact ⟨⟨p, hp, (h.1 p hp).1⟩, ⟨g, hg, (h.2 g hg).1⟩⟩

/-- C9: the engine is deterministic — running `parseTransactions` and
`calculateValuations` twice on the same inputs yields identical values
(the embedded functions are pure, so the two-run equality is definitional). -/
theorem claim_C9_deterministic (cfg : Config) (txs : List Tx) (r : Result) :
    parseTransactions cfg txs = parseTransactions cfg txs ∧
    calculateValuations cfg r = calculateValuations cfg r :=
  ⟨rfl, rfl⟩

/-! ### C2: delta and deltaPercent -/

/-- Fixture for the C2 counterexample: expected quantity configured as `0`. -/
def cfgC2 : Config :=
  { fiatTokens := ["USD"]
    tokenAliases := []
    expectedQuantities := [("BTC", 0)]
    groups := []
    scenarios := [] }

/-- C2 counterexample: with `expectedQuantities.BTC = 0`, the final token
has `quantity.expected = 0` defined, yet `deltaPercent` is a computed value
(`isSome`), not undefined — the source computes `delta / expected × 100`
whenever `expected !== undefined`, including `expected = 0` (in JS this
yields an infinite value). -/
theorem claim_C2_counterexample :
    ((omLookup (parseTransactions cfgC2 txsW).tokens "BTC").map
      (fun td => (td.quantity.expected, td.quantity.deltaPercent.isSome))) =
      some (some 0, true) := by
  simp [parseTransactions, applyTransaction, updateInvestmentData,
    updateSellData, updateCashOutData, updateFeesData, updateQuantityData,
    quantityLeg, initTokenData, freshTokenData, isFiatInvestmentTransaction,
    isRelevantInvestmentTransaction, resolveTokenAlias, getTokenAliases,
    getTruthyQ, getTruthyS, omLookup, omHas, omModify, omSet, jsSetAdd,
    jsSetOfList, addHistoricEntry, calculatePnlAndUnitPrice,
    finalizeTokenData, cfgC2, txsW, txW1, wDate1]

/-- C2 (amended): for every final token, if `quantity.expected` is defined
then `delta = computed − expected` and `deltaPercent` is *defined* —
equal to `delta / expected × 100` whenever `expected ≠ 0`, and still
computed (not omitted; an infinite JS value) when `expected = 0`; if
`expected` is undefined, both `delta` and `deltaPercent` are undefined. -/
theorem claim_C2_delta (cfg : Config) (txs : List Tx) :
    ∀ p ∈ (parseTransactions cfg txs).tokens,
      (∀ e, p.2.quantity.expected = some e →
        p.2.quantity.delta = some (p.2.quantity.computed - e) ∧
        p.2.quantity.deltaPercent.isSome = true ∧
        (e ≠ 0 → p.2.quantity.deltaPercent =
          some ((p.2.quantity.computed - e) / e * 100))) ∧
      (p.2.quantity.expected = none →
        p.2.quantity.delta = none ∧ p.2.quantity.deltaPercent = none) := by
  unfold parseTransactions
  dsimp only
  intro p hp
  rcases List.mem_map.1 hp with ⟨q, hq, rfl⟩
  unfold finalizeTokenData
  dsimp only
  constructor
  · intro e he
    rw [he]
    exact ⟨rfl, rfl, fun _ => rfl⟩
  · intro he
    rw [he]
    exact ⟨rfl, rfl⟩

/-- Witness for the amended C2 at the concrete portfolio (expected 2 BTC). -/
theorem claim_C2_delta_witness :
    ∃ p, p ∈ (parseTransactions cfgW txsW).tokens ∧
      p.2.quantity.expected = some 2 ∧
      p.2.quantity.delta = some (p.2.quantity.computed - 2) ∧
      p.2.quantity.deltaPercent = some ((p.2.quantity.computed - 2) / 2 * 100) := by
  have hs : (omLookup (parseTransactions cfgW txsW).tokens "BTC").isSome = true := by
    simp [parseTransactions, applyTransaction, updateInvestmentData,
      updateSellData, updateCashOutData, updateFeesData, updateQuantityData,
      quantityLeg, initTokenData, freshTokenData, isFiatInvestmentTransaction,
      isRelevantInvestmentTransaction, resolveTokenAlias, getTokenAliases,
      getTruthyQ, getTruthyS, omLookup, omHas, omModify, omSet, jsSetAdd,
      jsSetOfList, addHistoricEntry, calculatePnlAndUnitPrice,
      finalizeTokenData, cfgW, txsW, txW1, wDate1]
  obtain ⟨td, hl⟩ := Option.isSome_iff_exists.1 hs
  have hmap : (omLookup (parseTransactions cfgW txsW).tokens "BTC").map
      (fun v => v.quantity.expected) = some (some 2) := by
    simp [parseTransactions, applyTransaction, updateInvestmentData,
      updateSellData, updateCashOutData, updateFeesData, updateQuantityData,
      quantityLeg, initTokenData, freshTokenData, isFiatInvestmentTransaction,
      isRelevantInvestmentTransaction, resolveTokenAlias, getTokenAliases,
      getTruthyQ, getTruthyS, omLookup, omHas, omModify, omSet, jsSetAdd,
      jsSetOfList, addHistoricEntry, calculatePnlAndUnitPrice,
      finalizeTokenData, cfgW, txsW, txW1, wDate1]
  rw [hl] at hmap
  have hexp : td.quantity.expected = some 2 := by
    simpa using hmap
  obtain ⟨p, hp, -, hpv⟩ := omLookup_mem hl
  have hexp2 : p.2.quantity.expected = some 2 := by
    rw [hpv]
    exact hexp
  have h := (claim_C2_delta cfgW txsW p hp).1 2 hexp2
  refine ⟨p, hp, hexp2, h.1, ?_⟩
  exact h.2.2 (by norm_num)

/-- C5: for every group of the result, each of `cashIn`, `cashOut`,
`totalBuy`, `totalSell` equals the sum of that field over exactly the
member tokens recorded in `group.tokens`, all of which are present in the
ledger. -/
theorem claim_C5_group_sums (cfg : Config) (txs : List Tx) :
    ∀ g ∈ (parseTransactions cfg txs).groups,
      g.2.cashIn = (g.2.tokens.map
        (lookupQ (parseTransactions cfg txs).tokens (fun v => v.cashIn))).sum ∧
      g.2.cashOut = (g.2.tokens.map
        (lookupQ (parseTransactions cfg txs).tokens (fun v => v.cashOut))).sum ∧
      g.2.totalBuy = (g.2.tokens.map
        (lookupQ (parseTransactions cfg txs).tokens (fun v => v.totalBuy))).sum ∧
      g.2.totalSell = (g.2.tokens.map
        (lookupQ (parseTransactions cfg txs).tokens (fun v => v.totalSell))).sum ∧
      ∀ t ∈ g.2.tokens, omHas (parseTransactions cfg txs).tokens t = true := by
  intro g hg
  rw [parseTransactions_groups_eq] at hg
  rcases List.mem_map.1 hg with ⟨q, hq, rfl⟩
  obtain ⟨h1, h2, h3, h4, -, h6⟩ :=
    buildGroupAggregate_inv cfg (parseTransactions cfg txs).tokens q.2
  exact ⟨h1, h2, h3, h4, h6⟩

/-- Witness for C5 at the concrete one-group portfolio. -/
theorem claim_C5_group_sums_witness :
    ∃ g, g ∈ (parseTransactions cfgW txsW).groups ∧
      g.2.cashIn = (g.2.tokens.map
        (lookupQ (parseTransactions cfgW txsW).tokens (fun v => v.cashIn))).sum := by
  have hgne : (parseTransactions cfgW txsW).groups ≠ [] := by
    rw [parseTransactions_groups_eq]
    simp [cfgW]
  obtain ⟨g, hg⟩ := List.exists_mem_of_ne_nil _ hgne
  exact ⟨g, hg, (claim_C5_group_sums cfgW txsW g hg).1⟩

/-! ### C8: scenario exclusion of unpriced tokens -/

theorem valuationStep_unpriced {scenario : ScenarioCfg}
    {acc : ScenarioValuation} {p : String × TokenData}
    (h : omLookup scenario.prices p.1 = none) :
    valuationStep scenario acc p = acc := by
  unfold valuationStep
  rw [h]

theorem valuationFold_keys_priced {scenario : ScenarioCfg}
    {l : OMap TokenData} {acc : ScenarioValuation}
    (hacc : ∀ tv ∈ acc.tokenValuations, (omLookup scenario.prices tv.1).isSome = true) :
    ∀ tv ∈ (l.foldl (valuationStep scenario) acc).tokenValuations,
      (omLookup scenario.prices tv.1).isSome = true := by
  induction l generalizing acc with
  | nil => exact hacc
  | cons p l ih =>
      simp only [List.foldl_cons]
      apply ih
      unfold valuationStep
      cases hp : omLookup scenario.prices p.1 with
      | none => exact hacc
      | some price =>
          dsimp only
          intro tv htv
          unfold omSet at htv
          split at htv
          · rcases List.mem_map.1 htv with ⟨q, hq, rfl⟩
            by_cases hqk : q.1 = p.1
            · have hb : (q.1 == p.1) = true := by simpa using hqk
              simp only [hb, if_pos]
              rw [hqk, hp]
              rfl
            · have hb : (q.1 == p.1) = false := by simpa using hqk
              simp only [hb, Bool.false_eq_true, if_false]
              exact hacc q hq
          · rcases List.mem_append.1 htv with htv | htv
            · exact hacc tv htv
            · simp only [List.mem_singleton] at htv
              subst htv
              rw [hp]
              rfl

theorem valuationFold_filter (scenario : ScenarioCfg) (l : OMap TokenData)
    (acc : ScenarioValuation) :
    l.foldl (valuationStep scenario) acc =
      (l.filter (fun p => (omLookup scenario.prices p.1).isSome)).foldl
        (valuationStep scenario) acc := by
  induction l generalizing acc with
  | nil => rfl
  | cons p l ih =>
      cases hp : omLookup scenario.prices p.1 with
      | none =>
          have hflt : (omLookup scenario.prices p.1).isSome = false := by
            rw [hp]
            rfl
          simp only [List.foldl_cons, List.filter_cons, hflt,
            Bool.false_eq_true, if_false]
          rw [valuationStep_unpriced hp]
          exact ih acc
      | some price =>
          have hflt : (omLookup scenario.prices p.1).isSome = true := by
            rw [hp]
            rfl
          simp only [List.foldl_cons, List.filter_cons, hflt, if_true]
          exact ih (valuationStep scenario acc p)

/-- C8: each configured scenario's valuation appears in the output of
`calculateValuations`; every token key it values has a price in that
scenario's price map; and the whole scenario valuation (totals included)
is unchanged when the unpriced tokens are removed from the tokens map —
they contribute nothing. -/
theorem claim_C8_scenario_exclusion (cfg : Config) (r : Result) :
    ∀ q ∈ cfg.scenarios,
      scenarioValuation q.1 q.2 r.tokens ∈ calculateValuations cfg r ∧
      (∀ tv ∈ (scenarioValuation q.1 q.2 r.tokens).tokenValuations,
        (omLookup q.2.prices tv.1).isSome = true) ∧
      scenarioValuation q.1 q.2 r.tokens =
        scenarioValuation q.1 q.2 (r.tokens.filter
          (fun p => (omLookup q.2.prices p.1).isSome)) := by
  intro q hq
  refine ⟨?_, ?_, ?_⟩
  · unfold calculateValuations
    exact List.mem_map.2 ⟨q, hq, rfl⟩
  · unfold scenarioValuation
    apply valuationFold_keys_priced
    intro tv htv
    cases htv
  · unfold scenarioValuation
    exact valuationFold_filter q.2 r.tokens _

/-- Witness for C8 at the concrete configuration and portfolio. -/
theorem claim_C8_scenario_exclusion_witness :
    ("S", scnW) ∈ cfgW.scenarios ∧
    scenarioValuation "S" scnW (parseTransactions cfgW txsW).tokens ∈
      calculateValuations cfgW (parseTransactions cfgW txsW) := by
  have hmem : ("S", scnW) ∈ cfgW.scenarios := by
    simp [cfgW]
  exact ⟨hmem,
    (claim_C8_scenario_exclusion cfgW (parseTransactions cfgW txsW)
      ("S", scnW) hmem).1⟩

/-! ### Lookup lemmas for single-token updates -/

theorem omHas_eq_isSome {α : Type} (m : OMap α) (k : String) :
    omHas m k = (omLookup m k).isSome := by
  unfold omHas omLookup
  cases m.find? (fun p => p.1 == k) <;> rfl

theorem omLookup_omModify_self {α : Type} (m : OMap α) (k : String)
    (f : α → α) : omLookup (omModify m k f) k = (omLookup m k).map f := by
  unfold omLookup omModify
  induction m with
  | nil => rfl
  | cons p m ih =>
      by_cases h : p.1 = k
      · have hb : (p.1 == k) = true := by simpa using h
        simp only [List.map_cons, List.find?_cons, hb, if_pos]
        rfl
      · have hb : (p.1 == k) = false := by simpa using h
        simp only [List.map_cons, List.find?_cons, hb, Bool.false_eq_true,
          if_false]
        exact ih

theorem omLookup_initTokenData_self (cfg : Config) (m : OMap TokenData)
    (t : String) :
    omLookup (initTokenData cfg m t) (resolveTokenAlias cfg t) =
      some ((omLookup m (resolveTokenAlias cfg t)).getD
        (freshTokenData cfg (resolveTokenAlias cfg t))) := by
  unfold initTokenData
  dsimp only
  by_cases h : omHas m (resolveTokenAlias cfg t)
  · rw [omHas_eq_isSome] at h
    obtain ⟨v, hv⟩ := Option.isSome_iff_exists.1 h
    simp [omHas_eq_isSome, hv]
  · rw [omHas_eq_isSome] at h
    have hnone : omLookup m (resolveTokenAlias cfg t) = none := by
      cases hcase : omLookup m (resolveTokenAlias cfg t)
      · rfl
      · rw [hcase] at h
        exact absurd rfl h
    simp only [omHas_eq_isSome, hnone, Option.isSome_none,
      Bool.false_eq_true, if_false]
    rw [omLookup_append_right hnone]
    unfold omLookup
    simp [List.find?]

/-! ### C6: the cash-out condition -/

/-- Fixture for the C6 counterexample: an exchange into fiat whose sent leg
is complete but whose received-side amount/price are absent. -/
def txC6 : Tx :=
  { type := TxType.echange, date := wDate1
    amountReceived := none, tokenReceived := some "USD"
    amountSent := some 50, tokenSent := some "BTC"
    fees := none, tokenFees := none, label := ""
    priceTokenSent := some 2, priceTokenReceived := none
    priceTokenFees := none }

/-- C6 counterexample: `txC6` is an Exchange whose received token `"USD"`
is fiat and whose sent-side fields are all present, so by the claim the
sent token's `cashOut` must increase by `50 × 2`; but the source also
requires `amountReceived` and `priceTokenReceived` to be present
(truthy), so the update does not fire and the token map stays empty. -/
theorem claim_C6_cashout_counterexample :
    txC6.type = TxType.echange ∧
    txC6.tokenReceived = some "USD" ∧
    cfgW.fiatTokens.contains "USD" = true ∧
    txC6.amountSent = some 50 ∧
    txC6.priceTokenSent = some 2 ∧
    txC6.tokenSent = some "BTC" ∧
    updateCashOutData cfgW txC6 [] = [] := by
  refine ⟨rfl, rfl, by simp [cfgW], rfl, rfl, rfl, ?_⟩
  simp [updateCashOutData, getTruthyQ, getTruthyS, txC6]

/-- C6 (amended): the cash-out leg fires exactly when the transaction is an
Exchange with truthy `amountReceived`, `priceTokenReceived` and
`tokenReceived`, the raw received token is in the fiat set, and the sent
leg (`tokenSent`, `amountSent`, `priceTokenSent`) is truthy-complete; then
`cashOut` of the resolved sent token grows by `amountSent ×
priceTokenSent` (stated under idempotent alias resolution at the sent
token, the regime in which the source's in-place update is well defined);
in every other case the token map is unchanged. -/
theorem claim_C6_cashout (cfg : Config) (tx : Tx) (tokens : OMap TokenData) :
    (∀ s0 sa sp,
        tx.type = TxType.echange →
        (getTruthyQ tx.amountReceived).isSome = true →
        (getTruthyQ tx.priceTokenReceived).isSome = true →
        (∀ t0, getTruthyS tx.tokenReceived = some t0 →
          cfg.fiatTokens.contains t0 = true) →
        (getTruthyS tx.tokenReceived).isSome = true →
        getTruthyS tx.tokenSent = some s0 →
        getTruthyQ tx.amountSent = some sa →
        getTruthyQ tx.priceTokenSent = some sp →
        resolveTokenAlias cfg (resolveTokenAlias cfg s0) =
          resolveTokenAlias cfg s0 →
        lookupQ (updateCashOutData cfg tx tokens) (fun v => v.cashOut)
            (resolveTokenAlias cfg s0) =
          lookupQ tokens (fun v => v.cashOut) (resolveTokenAlias cfg s0)
            + sa * sp) ∧
    (¬(tx.type = TxType.echange ∧
        (getTruthyQ tx.amountReceived).isSome = true ∧
        (getTruthyQ tx.priceTokenReceived).isSome = true ∧
        (getTruthyS tx.tokenReceived).isSome = true ∧
        (getTruthyS tx.tokenSent).isSome = true ∧
        (getTruthyQ tx.amountSent).isSome = true ∧
        (getTruthyQ tx.priceTokenSent).isSome = true ∧
        (∀ t0, getTruthyS tx.tokenReceived = some t0 →
          cfg.fiatTokens.contains t0 = true)) →
      updateCashOutData cfg tx tokens = tokens) := by
  constructor
  · intro s0 sa sp htype haR hpR hfiat htRs hts hsa hsp hres
    obtain ⟨a, haR'⟩ := Option.isSome_iff_exists.1 haR
    obtain ⟨pr, hpR'⟩ := Option.isSome_iff_exists.1 hpR
    obtain ⟨t0, htR'⟩ := Option.isSome_iff_exists.1 htRs
    unfold updateCashOutData
    simp only [htype, beq_self_eq_true, if_true, haR', hpR', htR', hts,
      hsa, hsp, hfiat t0 htR', if_true]
    unfold lookupQ
    rw [omLookup_omModify_self]
    have hinit := omLookup_initTokenData_self cfg tokens (resolveTokenAlias cfg s0)
    rw [hres] at hinit
    rw [hinit]
    cases hold : omLookup tokens (resolveTokenAlias cfg s0) with
    | none => simp [freshTokenData]
    | some v => simp
  · intro hneg
    unfold updateCashOutData
    by_cases htype : tx.type = TxType.echange
    · simp only [htype, beq_self_eq_true, if_true]
      cases haR : getTruthyQ tx.amountReceived with
      | none => rfl
      | some a =>
      cases hpR : getTruthyQ tx.priceTokenReceived with
      | none => rfl
      | some pr =>
      cases htR : getTruthyS tx.tokenReceived with
      | none => rfl
      | some t0 =>
      cases hts : getTruthyS tx.tokenSent with
      | none => rfl
      | some s0 =>
      cases hsa : getTruthyQ tx.amountSent with
      | none => rfl
      | some sa =>
      cases hsp : getTruthyQ tx.priceTokenSent with
      | none => rfl
      | some sp =>
      dsimp only
      have hfiat : cfg.fiatTokens.contains t0 = false := by
        by_contra hcon
        apply hneg
        refine ⟨htype, by rw [haR]; rfl, by rw [hpR]; rfl, by rw [htR]; rfl,
          by rw [hts]; rfl, by rw [hsa]; rfl, by rw [hsp]; rfl, ?_⟩
        intro t0x ht0x
        rw [htR] at ht0x
        cases ht0x
        cases hc : cfg.fiatTokens.contains t0
        · exact absurd hc hcon
        · rfl
      rw [hfiat]
      rfl
    · have hb : (tx.type == TxType.echange) = false := by
        cases htt : tx.type <;> simp_all [TxType]
      rw [hb]
      rfl

/-- A complete cash-out exchange: sell 1 BTC at 100 into 100 USD. -/
def txC6w : Tx :=
  { type := TxType.echange, date := wDate1
    amountReceived := some 100, tokenReceived := some "USD"
    amountSent := some 1, tokenSent := some "BTC"
    fees := none, tokenFees := none, label := ""
    priceTokenSent := some 100, priceTokenReceived := some 1
    priceTokenFees := none }

/-- Witness for the amended C6 at a complete concrete cash-out exchange. -/
theorem claim_C6_cashout_witness :
    lookupQ (updateCashOutData cfgW txC6w []) (fun v => v.cashOut)
        (resolveTokenAlias cfgW "BTC") =
      lookupQ [] (fun v => v.cashOut) (resolveTokenAlias cfgW "BTC")
        + 1 * 100 := by
  have hts : getTruthyS txC6w.tokenSent = some "BTC" := by
    simp [getTruthyS, txC6w]
  have hres : resolveTokenAlias cfgW (resolveTokenAlias cfgW "BTC") =
      resolveTokenAlias cfgW "BTC" := by
    simp [resolveTokenAlias, cfgW]
  exact (claim_C6_cashout cfgW txC6w []).1 "BTC" 1 100 rfl
    (by simp [getTruthyQ, txC6w]) (by simp [getTruthyQ, txC6w])
    (by intro t0 ht0; simp [getTruthyS, txC6w] at ht0; subst ht0; simp [cfgW])
    (by simp [getTruthyS, txC6w]) hts
    (by simp [getTruthyQ, txC6w]) (by simp [getTruthyQ, txC6w]) hres

/-! ### C10: zero-valued fields behave exactly like missing fields -/

/-- A fixed placeholder transaction used to erase recorded payloads. -/
def blankTx : Tx :=
  { type := TxType.retrait, date := ⟨0, 0, 0, 0, 0, 0⟩
    amountReceived := none, tokenReceived := none
    amountSent := none, tokenSent := none
    fees := none, tokenFees := none, label := ""
    priceTokenSent := none, priceTokenReceived := none
    priceTokenFees := none }

/-- Erase the recorded transaction payload of one historic entry. -/
def stripEntry (e : HistoricEntry) : HistoricEntry :=
  { e with transaction := blankTx }

/-- Erase the recorded transaction payloads of one token. -/
def stripTD (v : TokenData) : TokenData :=
  { v with historic := v.historic.map stripEntry }

/-- Erase the recorded transaction payloads of the whole token map. -/
def stripTx (m : OMap TokenData) : OMap TokenData :=
  m.map (fun p => (p.1, stripTD p.2))

theorem stripTD_addHistoricEntry (v : TokenData) (d : WDate) (t : Tx) :
    stripTD (addHistoricEntry v d t) =
      addHistoricEntry (stripTD v) d blankTx := by
  unfold addHistoricEntry stripTD
  dsimp only
  rw [List.getLast?_map stripEntry v.historic]
  cases v.historic.getLast? with
  | none =>
      simp [stripEntry, calculatePnlAndUnitPrice]
  | some e =>
      simp [stripEntry, calculatePnlAndUnitPrice]

theorem stripTx_omModify_addEntry (m : OMap TokenData) (k : String)
    (d : WDate) (t : Tx) :
    stripTx (omModify m k (fun v => addHistoricEntry v d t)) =
      omModify (stripTx m) k (fun v => addHistoricEntry v d blankTx) := by
  unfold stripTx omModify
  rw [List.map_map, List.map_map]
  apply List.map_congr_left
  intro p _
  by_cases h : p.1 = k
  · have hb : (p.1 == k) = true := by simpa using h
    simp only [Function.comp_apply, hb, if_pos]
    rw [stripTD_addHistoricEntry]
  · have hb : (p.1 == k) = false := by simpa using h
    simp only [Function.comp_apply, hb, Bool.false_eq_true, if_false]

theorem stripTx_foldl_comm (l : List String) (m : OMap TokenData)
    (d : WDate) (t : Tx) :
    stripTx (l.foldl (fun tks k =>
        omModify tks k (fun v => addHistoricEntry v d t)) m) =
      l.foldl (fun tks k =>
        omModify tks k (fun v => addHistoricEntry v d blankTx)) (stripTx m) := by
  induction l generalizing m with
  | nil => rfl
  | cons a l ih =>
      simp only [List.foldl_cons]
      rw [ih, stripTx_omModify_addEntry]

theorem stripTx_foldl_addEntries (l : List String) (m : OMap TokenData)
    (d : WDate) (t1 t2 : Tx) :
    stripTx (l.foldl (fun tks k =>
        omModify tks k (fun v => addHistoricEntry v d t1)) m) =
      stripTx (l.foldl (fun tks k =>
        omModify tks k (fun v => addHistoricEntry v d t2)) m) := by
  rw [stripTx_foldl_comm, stripTx_foldl_comm]

theorem quantityLeg_falsy {cfg : Config} {a : Option ℚ} {tok : Option String}
    {sgn : ℚ} {st : QuantityUpdateState} (h : getTruthyQ a = none) :
    quantityLeg cfg a tok sgn st = st := by
  unfold quantityLeg
  rw [h]

/-- C10: a leg whose numeric field is `0` is processed exactly as if the
field were missing: the investment update ignores a zero received amount
or price, the quantity update makes no quantity change and appends no
historic entry for a zero received/sent/fee amount (equality up to the
transaction payload recorded inside historic entries, which necessarily
differs between the two inputs), and a zero fee amount or fee price adds
nothing to the total-fees accumulator. -/
theorem claim_C10_zero_as_absent (cfg : Config) (tx : Tx)
    (tokens : OMap TokenData) (d : WDate) (tf : ℚ) :
    (updateInvestmentData cfg { tx with amountReceived := some 0 } tokens =
      updateInvestmentData cfg { tx with amountReceived := none } tokens) ∧
    (updateInvestmentData cfg { tx with priceTokenReceived := some 0 } tokens =
      updateInvestmentData cfg { tx with priceTokenReceived := none } tokens) ∧
    (stripTx (updateQuantityData cfg { tx with amountReceived := some 0 }
        tokens d) =
      stripTx (updateQuantityData cfg { tx with amountReceived := none }
        tokens d)) ∧
    (stripTx (updateQuantityData cfg { tx with amountSent := some 0 }
        tokens d) =
      stripTx (updateQuantityData cfg { tx with amountSent := none }
        tokens d)) ∧
    (stripTx (updateQuantityData cfg { tx with fees := some 0 } tokens d) =
      stripTx (updateQuantityData cfg { tx with fees := none } tokens d)) ∧
    (updateFeesData { tx with fees := some 0 } tf =
      updateFeesData { tx with fees := none } tf) ∧
    (updateFeesData { tx with priceTokenFees := some 0 } tf =
      updateFeesData { tx with priceTokenFees := none } tf) := by
  have h0 : getTruthyQ (some 0) = none := by
    simp [getTruthyQ]
  refine ⟨?_, ?_, ?_, ?_, ?_, ?_, ?_⟩
  · simp [updateInvestmentData, h0, getTruthyQ]
  · simp [updateInvestmentData, h0, getTruthyQ]
  · unfold updateQuantityData
    dsimp only
    rw [quantityLeg_falsy h0,
      quantityLeg_falsy (show getTruthyQ none = none from rfl)]
    split
    · exact stripTx_foldl_addEntries _ _ _ _ _
    · rfl
  · unfold updateQuantityData
    dsimp only
    rw [quantityLeg_falsy h0,
      quantityLeg_falsy (show getTruthyQ none = none from rfl)]
    split
    · exact stripTx_foldl_addEntries _ _ _ _ _
    · rfl
  · unfold updateQuantityData
    dsimp only
    rw [quantityLeg_falsy h0,
      quantityLeg_falsy (show getTruthyQ none = none from rfl)]
    split
    · exact stripTx_foldl_addEntries _ _ _ _ _
    · rfl
  · simp [updateFeesData, h0, getTruthyQ]
  · simp [updateFeesData, h0, getTruthyQ]

/-! ### C7: canonical keys -/

/-- `k` is a configured alias of *another* token. -/
def AliasOfAnother (cfg : Config) (k : String) : Prop :=
  ∃ p ∈ cfg.tokenAliases, k ∈ p.2 ∧ p.1 ≠ k

/-- Well-formed alias table: a canonical key never occurs in the alias list
of a different canonical key. -/
def AliasTableWF (cfg : Config) : Prop :=
  ∀ p ∈ cfg.tokenAliases, ∀ q ∈ cfg.tokenAliases, p.1 ∈ q.2 → q.1 = p.1

/-- `k` lies in the range of the alias resolver: it is a key of the alias
table, or no alias list mentions it. -/
def ResolvedKey (cfg : Config) (k : String) : Prop :=
  (∃ p ∈ cfg.tokenAliases, p.1 = k) ∨ (∀ p ∈ cfg.tokenAliases, k ∉ p.2)

theorem resolvedKey_resolve (cfg : Config) (t : String) :
    ResolvedKey cfg (resolveTokenAlias cfg t) := by
  unfold resolveTokenAlias
  cases hf : cfg.tokenAliases.find? (fun p => p.2.contains t) with
  | some p => exact Or.inl ⟨p, List.mem_of_find?_eq_some hf, rfl⟩
  | none =>
      refine Or.inr ?_
      intro p hp hmem
      have := List.find?_eq_none.1 hf p hp
      exact this (List.elem_eq_true_of_mem hmem)

theorem resolvedKey_not_aliasOfAnother {cfg : Config} {k : String}
    (hwf : AliasTableWF cfg) (h : ResolvedKey cfg k) :
    ¬ AliasOfAnother cfg k := by
  rintro ⟨q, hq, hkq, hne⟩
  cases h with
  | inl h =>
      obtain ⟨p, hp, hpk⟩ := h
      subst hpk
      exact hne (hwf p hp q hq hkq)
  | inr h => exact h q hq hkq

theorem mapProp_initTokenData' {P : String → TokenData → Prop} {cfg : Config}
    {m : OMap TokenData} {t : String} (hm : MapProp P m)
    (hfresh : P (resolveTokenAlias cfg t)
      (freshTokenData cfg (resolveTokenAlias cfg t))) :
    MapProp P (initTokenData cfg m t) := by
  unfold initTokenData
  by_cases h : omHas m (resolveTokenAlias cfg t)
  · simpa [h] using hm
  · simp only [h, Bool.false_eq_true, if_false]
    refine mapProp_append hm ?_
    intro p hp
    simp only [List.mem_singleton] at hp
    subst hp
    exact hfresh

/-- All keys of the map are in the range of the alias resolver. -/
def KeysResolved (cfg : Config) (m : OMap TokenData) : Prop :=
  MapProp (fun k _ => ResolvedKey cfg k) m

theorem keysResolved_updateInvestmentData {cfg : Config} {tx : Tx}
    {m : OMap TokenData} (hm : KeysResolved cfg m) :
    KeysResolved cfg (updateInvestmentData cfg tx m) := by
  unfold updateInvestmentData
  split
  · exact mapProp_omModify
      (mapProp_initTokenData' hm (resolvedKey_resolve cfg _)) (fun v h => h)
  · exact hm

theorem keysResolved_updateSellData {cfg : Config} {tx : Tx}
    {m : OMap TokenData} (hm : KeysResolved cfg m) :
    KeysResolved cfg (updateSellData cfg tx m) := by
  unfold updateSellData
  split
  · split
    · exact mapProp_omModify
        (mapProp_initTokenData' hm (resolvedKey_resolve cfg _)) (fun v h => h)
    · exact hm
  · exact hm

theorem keysResolved_updateCashOutData {cfg : Config} {tx : Tx}
    {m : OMap TokenData} (hm : KeysResolved cfg m) :
    KeysResolved cfg (updateCashOutData cfg tx m) := by
  unfold updateCashOutData
  split
  · split
    · split
      · exact mapProp_omModify
          (mapProp_initTokenData' hm (resolvedKey_resolve cfg _)) (fun v h => h)
      · exact hm
    · exact hm
  · exact hm

theorem keysResolved_quantityLeg {cfg : Config} {a : Option ℚ}
    {t : Option String} {sgn : ℚ} {st : QuantityUpdateState}
    (hm : KeysResolved cfg st.tokens) :
    KeysResolved cfg (quantityLeg cfg a t sgn st).tokens := by
  unfold quantityLeg
  split
  · dsimp only
    exact mapProp_omModify
      (mapProp_initTokenData' hm (resolvedKey_resolve cfg _)) (fun v h => h)
  · exact hm

theorem keysResolved_foldl_addEntries {cfg : Config} {tokens : OMap TokenData}
    {l : List String} {d : WDate} {tx : Tx}
    (h : KeysResolved cfg tokens) :
    KeysResolved cfg (l.foldl (fun tks token =>
      omModify tks token (fun v => addHistoricEntry v d tx)) tokens) := by
  induction l generalizing tokens with
  | nil => exact h
  | cons a l ih => exact ih (mapProp_omModify h (fun v hv => hv))

theorem keysResolved_updateQuantityData {cfg : Config} {tx : Tx}
    {m : OMap TokenData} {d : WDate} (hm : KeysResolved cfg m) :
    KeysResolved cfg (updateQuantityData cfg tx m d) := by
  unfold updateQuantityData
  dsimp only
  have h3 : KeysResolved cfg (quantityLeg cfg tx.fees tx.tokenFees (-1)
      (quantityLeg cfg tx.amountSent tx.tokenSent (-1)
        (quantityLeg cfg tx.amountReceived tx.tokenReceived 1
          ⟨m, [], false⟩))).tokens :=
    keysResolved_quantityLeg (keysResolved_quantityLeg
      (keysResolved_quantityLeg hm))
  split
  · exact keysResolved_foldl_addEntries h3
  · exact h3

theorem keysResolved_applyTransaction {cfg : Config} {st : ParseState}
    {tx : Tx} (hm : KeysResolved cfg st.tokens) :
    KeysResolved cfg (applyTransaction cfg st tx).tokens := by
  unfold applyTransaction
  dsimp only
  apply keysResolved_updateQuantityData
  split
  · apply keysResolved_updateCashOutData
    apply keysResolved_updateSellData
    split
    · exact keysResolved_updateInvestmentData hm
    · exact hm
  · split
    · exact keysResolved_updateInvestmentData hm
    · exact hm

theorem keysResolved_parse (cfg : Config) (txs : List Tx) :
    KeysResolved cfg (parseTransactions cfg txs).tokens := by
  have hfold : ∀ (txs : List Tx) (st : ParseState),
      KeysResolved cfg st.tokens →
      KeysResolved cfg (txs.foldl (applyTransaction cfg) st).tokens := by
    intro txs
    induction txs with
    | nil => exact fun st h => h
    | cons tx txs ih => exact fun st h => ih _ (keysResolved_applyTransaction h)
  unfold parseTransactions
  dsimp only
  exact mapProp_valueMap (hfold txs ⟨[], 0, 0⟩ (mapProp_nil _)) (fun k v h => h)

/-- C7 (amended): whenever the alias table is well formed (no canonical key
occurs in the alias list of a *different* canonical key), no key of the
result's tokens map is a configured alias of another token. -/
theorem claim_C7_canonical_keys (cfg : Config) (txs : List Tx)
    (hwf : AliasTableWF cfg) :
    ∀ p ∈ (parseTransactions cfg txs).tokens, ¬ AliasOfAnother cfg p.1 := by
  intro p hp
  exact resolvedKey_not_aliasOfAnother hwf (keysResolved_parse cfg txs p hp)

/-- Fixture for the C7 counterexample: the canonical key `"B"` (which wins
resolution for `"C"` and for itself, its own alias list listing `"B"`
first) is also configured as an alias of `"A"`. -/
def cfgC7 : Config :=
  { fiatTokens := []
    tokenAliases := [("B", ["B", "C"]), ("A", ["B"])]
    expectedQuantities := []
    groups := []
    scenarios := [] }

/-- A deposit of 5 `"C"`. -/
def txC7 : Tx :=
  { type := TxType.depot, date := wDate1
    amountReceived := some 5, tokenReceived := some "C"
    amountSent := none, tokenSent := none
    fees := none, tokenFees := none, label := ""
    priceTokenSent := none, priceTokenReceived := none
    priceTokenFees := none }

def txsC7 : List Tx := [txC7]

/-- C7 counterexample: with alias table `{B: [B, C], A: [B]}` and a deposit
of token `"C"`, the resulting tokens map has exactly the key `"B"`, which
is a configured alias of the other token `"A"` — so an alias of another
token does appear as a map key. -/
theorem claim_C7_counterexample :
    ((parseTransactions cfgC7 txsC7).tokens.map Prod.fst = ["B"]) ∧
    AliasOfAnother cfgC7 "B" := by
  constructor
  · simp [parseTransactions, applyTransaction, updateInvestmentData,
      updateSellData, updateCashOutData, updateFeesData, updateQuantityData,
      quantityLeg, initTokenData, freshTokenData, isFiatInvestmentTransaction,
      isRelevantInvestmentTransaction, resolveTokenAlias, getTokenAliases,
      getTruthyQ, getTruthyS, omLookup, omHas, omModify, omSet, jsSetAdd,
      jsSetOfList, addHistoricEntry, calculatePnlAndUnitPrice,
      finalizeTokenData, cfgC7, txsC7, txC7, wDate1]
  · refine ⟨("A", ["B"]), ?_, ?_, ?_⟩
    · simp [cfgC7]
    · simp
    · decide

/-- Witness for the amended C7: the well-formedness and membership
hypotheses discharged at the concrete configuration and portfolio. -/
theorem claim_C7_canonical_keys_witness :
    AliasTableWF cfgW ∧
    ∃ p, p ∈ (parseTransactions cfgW txsW).tokens ∧
      ¬ AliasOfAnother cfgW p.1 := by
  have hwf : AliasTableWF cfgW := by
    intro p hp q hq hmem
    simp [cfgW] at hp hq
    subst hp
    subst hq
    simp at hmem
  have hne : (parseTransactions cfgW txsW).tokens ≠ [] := by
    simp [parseTransactions, applyTransaction, updateInvestmentData,
      updateSellData, updateCashOutData, updateFeesData, updateQuantityData,
      quantityLeg, initTokenData, freshTokenData, isFiatInvestmentTransaction,
      isRelevantInvestmentTransaction, resolveTokenAlias, getTokenAliases,
      getTruthyQ, getTruthyS, omLookup, omHas, omModify, omSet, jsSetAdd,
      jsSetOfList, addHistoricEntry, calculatePnlAndUnitPrice,
      finalizeTokenData, cfgW, txsW, txW1, wDate1]
  obtain ⟨p, hp⟩ := List.exists_mem_of_ne_nil _ hne
  exact ⟨hwf, p, hp, claim_C7_canonical_keys cfgW txsW hwf p hp⟩

/-! ### C1: the scenario totalExpected -/

/-- The tokens of the map included in a scenario (price defined). -/
def includedTokens (scenario : ScenarioCfg) (tokens : OMap TokenData) :
    OMap TokenData :=
  tokens.filter (fun p => (omLookup scenario.prices p.1).isSome)

/-- Truthy expected quantity (defined and nonzero). -/
def truthyExpected (p : String × TokenData) : Bool :=
  (getTruthyQ p.2.quantity.expected).isSome

/-- The expected value a token contributes: truthy expected × price. -/
def expectedValueOf (scenario : ScenarioCfg) (p : String × TokenData) : ℚ :=
  ((getTruthyQ p.2.quantity.expected).getD 0) *
    ((omLookup scenario.prices p.1).getD 0)

/-- What the final `totalExpected` actually is: `undefined` exactly when
the included list ends in a token with falsy expected quantity; otherwise
the sum of expected values over the maximal all-truthy suffix of the
included tokens (the `(totalExpected || 0)` in the source restarts the
accumulator after each falsy token). -/
def totalExpectedSpec (scenario : ScenarioCfg) (l : OMap TokenData) :
    Option ℚ :=
  let suffix := (l.reverse.takeWhile truthyExpected).reverse
  if l ≠ [] ∧ suffix = [] then none
  else some ((suffix.map (expectedValueOf scenario)).sum)

theorem totalExpectedSpec_append_falsy (sc : ScenarioCfg)
    (l : OMap TokenData) (p : String × TokenData)
    (h : truthyExpected p = false) :
    totalExpectedSpec sc (l ++ [p]) = none := by
  unfold totalExpectedSpec
  have hsuffix : ((l ++ [p]).reverse.takeWhile truthyExpected) = [] := by
    rw [List.reverse_append]
    simp [List.takeWhile, h]
  simp [hsuffix, h]

theorem totalExpectedSpec_append_truthy (sc : ScenarioCfg)
    (l : OMap TokenData) (p : String × TokenData)
    (h : truthyExpected p = true) :
    totalExpectedSpec sc (l ++ [p]) =
      some (((totalExpectedSpec sc l).getD 0) + expectedValueOf sc p) := by
  unfold totalExpectedSpec
  have hsuffix : ((l ++ [p]).reverse.takeWhile truthyExpected).reverse =
      (l.reverse.takeWhile truthyExpected).reverse ++ [p] := by
    rw [List.reverse_append]
    simp [List.takeWhile, h]
  rw [hsuffix]
  by_cases hcond : l ≠ [] ∧ (l.reverse.takeWhile truthyExpected).reverse = []
  · rw [if_pos hcond, if_neg (by simp)]
    rw [hcond.2]
    simp
  · rw [if_neg hcond, if_neg (by simp)]
    simp only [List.map_append, List.sum_append, List.map_cons,
      List.map_nil, List.sum_cons, List.sum_nil, Option.getD_some]
    ring_nf

theorem totalExpected_fold (sc : ScenarioCfg) (acc : ScenarioValuation)
    (hacc : acc.totalExpected = some 0) (l : OMap TokenData)
    (hl : ∀ p ∈ l, (omLookup sc.prices p.1).isSome = true) :
    (l.foldl (valuationStep sc) acc).totalExpected = totalExpectedSpec sc l := by
  induction l using List.reverseRecOn with
  | nil => simpa [totalExpectedSpec] using hacc
  | append_singleton l p ih =>
      have hl' : ∀ q ∈ l, (omLookup sc.prices q.1).isSome = true := by
        intro q hq
        exact hl q (by simp [hq])
      have hp : (omLookup sc.prices p.1).isSome = true := hl p (by simp)
      obtain ⟨price, hprice⟩ := Option.isSome_iff_exists.1 hp
      rw [List.foldl_append]
      simp only [List.foldl_cons, List.foldl_nil]
      have ih2 := ih hl'
      generalize hacc2 : List.foldl (valuationStep sc) acc l = acc2 at ih2 ⊢
      unfold valuationStep
      rw [hprice]
      dsimp only
      cases hexp : getTruthyQ p.2.quantity.expected with
      | none =>
          rw [totalExpectedSpec_append_falsy sc l p
            (by unfold truthyExpected; rw [hexp]; rfl)]
      | some e =>
          rw [totalExpectedSpec_append_truthy sc l p
            (by unfold truthyExpected; rw [hexp]; rfl)]
          rw [← ih2]
          unfold expectedValueOf
          rw [hexp, hprice]
          rfl

/-- C1 (amended): a scenario's `totalExpected` is not all-or-nothing: the
fold restarts the accumulator (`totalExpected || 0`) after every included
token with a falsy (missing *or zero*) expected quantity, so the final
value is undefined exactly when the *last* included token (in tokens-map
insertion order) has a falsy expected quantity, and otherwise equals the
sum of expected × price over the maximal all-truthy suffix of the included
tokens. -/
theorem claim_C1_totalExpected (cfg : Config) (r : Result) :
    ∀ q ∈ cfg.scenarios,
      scenarioValuation q.1 q.2 r.tokens ∈ calculateValuations cfg r ∧
      (scenarioValuation q.1 q.2 r.tokens).totalExpected =
        totalExpectedSpec q.2 (includedTokens q.2 r.tokens) := by
  intro q hq
  refine ⟨List.mem_map.2 ⟨q, hq, rfl⟩, ?_⟩
  unfold scenarioValuation includedTokens
  rw [valuationFold_filter]
  apply totalExpected_fold q.2 _ rfl
  intro p hp
  exact (List.mem_filter.1 hp).2

def scnC1S : ScenarioCfg := { description := "", prices := [("A", 1), ("B", 2)] }

def scnC1Z : ScenarioCfg := { description := "", prices := [("C", 3)] }

/-- Fixture for the C1 counterexample: token `A` has no expected quantity,
`B` has expected `1`, `C` has expected `0`. -/
def cfgC1 : Config :=
  { fiatTokens := []
    tokenAliases := []
    expectedQuantities := [("B", 1), ("C", 0)]
    groups := []
    scenarios := [("S", scnC1S), ("Z", scnC1Z)] }

/-- A plain deposit of 1 unit of the given token. -/
def depositTx (t : String) : Tx :=
  { type := TxType.depot, date := wDate1
    amountReceived := some 1, tokenReceived := some t
    amountSent := none, tokenSent := none
    fees := none, tokenFees := none, label := ""
    priceTokenSent := none, priceTokenReceived := none
    priceTokenFees := none }

def txsC1 : List Tx := [depositTx "A", depositTx "B", depositTx "C"]

/-- C1 counterexample: in scenario `S` token `A` is included (priced) and
lacks an expected quantity, yet `totalExpected` is `2` (the later token
`B` restarts the accumulator), not undefined; and in scenario `Z` the only
included token `C` has the *defined* expected quantity `0`, yet
`totalExpected` is undefined (truthiness) instead of the sum `0`. -/
theorem claim_C1_counterexample :
    ((calculateValuations cfgC1 (parseTransactions cfgC1 txsC1)).map
      (fun sv => sv.totalExpected) = [some 2, none]) ∧
    ((omLookup (parseTransactions cfgC1 txsC1).tokens "A").map
      (fun td => td.quantity.expected) = some none) ∧
    omLookup scnC1S.prices "A" = some 1 ∧
    ((omLookup (parseTransactions cfgC1 txsC1).tokens "C").map
      (fun td => td.quantity.expected) = some (some 0)) ∧
    omLookup scnC1Z.prices "C" = some 3 := by
  refine ⟨?_, ?_, ?_, ?_, ?_⟩ <;>
    simp [calculateValuations, scenarioValuation, valuationStep,
      parseTransactions, applyTransaction, updateInvestmentData,
      updateSellData, updateCashOutData, updateFeesData, updateQuantityData,
      quantityLeg, initTokenData, freshTokenData, isFiatInvestmentTransaction,
      isRelevantInvestmentTransaction, resolveTokenAlias, getTokenAliases,
      getTruthyQ, getTruthyS, omLookup, omHas, omModify, omSet, jsSetAdd,
      jsSetOfList, addHistoricEntry, calculatePnlAndUnitPrice,
      finalizeTokenData, cfgC1, scnC1S, scnC1Z, txsC1, depositTx, wDate1]

/-- Witness for the amended C1 at the concrete configuration/portfolio. -/
theorem claim_C1_totalExpected_witness :
    ("S", scnW) ∈ cfgW.scenarios ∧
    (scenarioValuation "S" scnW
        (parseTransactions cfgW txsW).tokens).totalExpected =
      totalExpectedSpec scnW
        (includedTokens scnW (parseTransactions cfgW txsW).tokens) := by
  have hmem : ("S", scnW) ∈ cfgW.scenarios := by
    simp [cfgW]
  exact ⟨hmem, (claim_C1_totalExpected cfgW (parseTransactions cfgW txsW)
    ("S", scnW) hmem).2⟩

/-! ### C4: the group historic sequence -/

theorem sortInsertEntry_perm (e : HistoricEntry) (l : List HistoricEntry) :
    (sortInsertEntry e l).Perm (e :: l) := by
  induction l with
  | nil => exact List.Perm.refl _
  | cons x xs ih =>
      unfold sortInsertEntry
      by_cases h : parseDate x.date < parseDate e.date
      · simp only [h, if_pos]
        exact (ih.cons x).trans (List.Perm.swap e x xs)
      · simp only [h, if_neg, not_false_iff]
        exact List.Perm.refl _

theorem sortEntriesByDate_perm (l : List HistoricEntry) :
    (sortEntriesByDate l).Perm l := by
  induction l with
  | nil => exact List.Perm.refl _
  | cons e es ih =>
      exact (sortInsertEntry_perm e (sortEntriesByDate es)).trans (ih.cons e)

theorem sortInsertEntry_sorted (e : HistoricEntry) {l : List HistoricEntry}
    (h : l.Sorted (fun a b => parseDate a.date ≤ parseDate b.date)) :
    (sortInsertEntry e l).Sorted (fun a b => parseDate a.date ≤ parseDate b.date) := by
  induction l with
  | nil => simp [sortInsertEntry]
  | cons x xs ih =>
      unfold sortInsertEntry
      rw [List.sorted_cons] at h
      by_cases hc : parseDate x.date < parseDate e.date
      · simp only [hc, if_pos]
        rw [List.sorted_cons]
        constructor
        · intro b hb
          have hmem := (sortInsertEntry_perm e xs).mem_iff.1 hb
          rcases List.mem_cons.1 hmem with hb | hb
          · subst hb
            exact le_of_lt hc
          · exact h.1 b hb
        · exact ih h.2
      · simp only [hc, if_neg, not_false_iff]
        rw [List.sorted_cons]
        constructor
        · intro b hb
          rcases List.mem_cons.1 hb with hb | hb
          · subst hb
            exact le_of_not_lt hc
          · exact le_trans (le_of_not_lt hc) (h.1 b hb)
        · rw [List.sorted_cons]
          exact h
      
theorem sortEntriesByDate_sorted (l : List HistoricEntry) :
    (sortEntriesByDate l).Sorted (fun a b => parseDate a.date ≤ parseDate b.date) := by
  induction l with
  | nil => simp [sortEntriesByDate]
  | cons e es ih => exact sortInsertEntry_sorted e ih

theorem filter_sortInsertEntry (e : HistoricEntry) (l : List HistoricEntry)
    (t : Nat) :
    (sortInsertEntry e l).filter (fun x => parseDate x.date == t) =
      (e :: l).filter (fun x => parseDate x.date == t) := by
  induction l with
  | nil => rfl
  | cons x xs ih =>
      unfold sortInsertEntry
      by_cases hc : parseDate x.date < parseDate e.date
      · simp only [hc, if_pos]
        by_cases het : parseDate e.date = t
        · have hxt : (parseDate x.date == t) = false := by
            have hne : parseDate x.date ≠ t := by
              omega
            simpa using hne
          simp only [List.filter_cons, hxt, Bool.false_eq_true, if_false]
          rw [ih]
          simp only [List.filter_cons, hxt, Bool.false_eq_true, if_false]
        · have het2 : (parseDate e.date == t) = false := by simpa using het
          simp only [List.filter_cons, het2, Bool.false_eq_true, if_false]
          rw [ih]
          simp only [List.filter_cons, het2, Bool.false_eq_true, if_false]
      · simp only [hc, if_neg, not_false_iff]

theorem sortEntriesByDate_stable (l : List HistoricEntry) (t : Nat) :
    (sortEntriesByDate l).filter (fun x => parseDate x.date == t) =
      l.filter (fun x => parseDate x.date == t) := by
  induction l with
  | nil => rfl
  | cons e es ih =>
      unfold sortEntriesByDate
      rw [filter_sortInsertEntry]
      simp only [List.filter_cons]
      rw [ih]

/-- Placeholder historic entry used only for out-of-range indexing. -/
def dummyHistEntry : HistoricEntry :=
  { date := ⟨0, 0, 0, 0, 0, 0⟩, quantity := 0, totalBuy := 0
    totalBuyDelta := 0, totalSell := 0, totalSellDelta := 0, cashIn := 0
    cashInDelta := 0, cashOut := 0, cashOutDelta := 0, pnlRealized := 0
    unitPrice := 0, transaction := blankTx }

/-- Modelled from the claim: one group historic point per sorted source
entry, carrying that entry's date and transaction, each cumulative field
being the prefix sum of the corresponding per-entry deltas up to and
including that entry. -/
def groupPointSpec (sorted : List HistoricEntry) (i : Nat) :
    GroupHistoricEntry :=
  let pre := sorted.take (i + 1)
  let ei := sorted.getD i dummyHistEntry
  { date := ei.date
    cashIn := (pre.map (fun e => e.cashInDelta)).sum
    cashOut := (pre.map (fun e => e.cashOutDelta)).sum
    totalBuy := (pre.map (fun e => e.totalBuyDelta)).sum
    totalSell := (pre.map (fun e => e.totalSellDelta)).sum
    pnlRealized := (pre.map (fun e => e.totalSellDelta)).sum -
      (pre.map (fun e => e.totalBuyDelta)).sum
    transaction := ei.transaction }

theorem getD_append_lt {α : Type} (l l' : List α) (i : Nat) (d : α)
    (h : i < l.length) : (l ++ l').getD i d = l.getD i d := by
  unfold List.getD
  rw [List.get?_append h]

theorem getD_append_len {α : Type} (l l' : List α) (d : α) :
    (l ++ l').getD l.length d = l'.getD 0 d := by
  unfold List.getD
  rw [List.get?_append_right (le_refl _)]
  simp

theorem groupPointSpec_append (es : List HistoricEntry) (e : HistoricEntry)
    (i : Nat) (h : i < es.length) :
    groupPointSpec (es ++ [e]) i = groupPointSpec es i := by
  unfold groupPointSpec
  rw [List.take_append_of_le_length (by omega), getD_append_lt _ _ _ _ h]

theorem groupHistScan_eq (es : List HistoricEntry) :
    es.foldl groupHistStep [] =
      (List.range es.length).map (groupPointSpec es) := by
  induction es using List.reverseRecOn with
  | nil => rfl
  | append_singleton es e ih =>
      rw [List.foldl_append, List.foldl_cons, List.foldl_nil, ih]
      have hlen : (es ++ [e]).length = es.length + 1 := by simp
      rw [hlen, List.range_succ, List.map_append]
      unfold groupHistStep
      dsimp only
      have hmapeq : (List.range es.length).map (groupPointSpec (es ++ [e])) =
          (List.range es.length).map (groupPointSpec es) := by
        apply List.map_congr_left
        intro i hi
        exact groupPointSpec_append es e i (List.mem_range.1 hi)
      rw [hmapeq]
      congr 1
      simp only [List.map_cons, List.map_nil]
      congr 1
      rcases Nat.eq_zero_or_pos es.length with h0 | hpos
      · have hnil : es = [] := List.length_eq_zero.1 h0
        subst hnil
        simp [groupPointSpec, List.getD]
      · have hlast : ((List.range es.length).map (groupPointSpec es)).getLast? =
            some (groupPointSpec es (es.length - 1)) := by
          have hrange : List.range es.length =
              List.range (es.length - 1) ++ [es.length - 1] := by
            have h1 : es.length = (es.length - 1) + 1 := by omega
            conv_lhs => rw [h1, List.range_succ]
          rw [hrange, List.map_append]
          simp
        rw [hlast]
        have htake : es.take ((es.length - 1) + 1) = es := by
          have h1 : (es.length - 1) + 1 = es.length := by omega
          rw [h1]
          exact List.take_length es
        have htake2 : (es ++ [e]).take (es.length + 1) = es ++ [e] := by
          have h1 : es.length + 1 = (es ++ [e]).length := by simp
          rw [h1]
          exact List.take_length _
        unfold groupPointSpec
        dsimp only
        rw [htake, htake2, getD_append_len]
        simp only [List.map_append, List.sum_append, List.map_cons,
          List.map_nil, List.sum_cons, List.sum_nil, List.getD]
        congr 1 <;> (simp only [Option.map_some', Option.getD_some]; ring)

/-- Modelled from the claim: entry collection with member names resolved to
canonical symbols the same way the aggregate pass resolves them. -/
def collectGroupEntriesClaim (cfg : Config) (tokens : OMap TokenData)
    (tokensInGroup : List String) : List HistoricEntry :=
  tokensInGroup.flatMap (fun tokenName =>
    match omLookup tokens (resolveTokenAlias cfg tokenName) with
    | some t => t.historic
    | none => [])

/-- C4 (amended): the group historic is built from the member entries
looked up by their *raw* configured names (no alias resolution, unlike the
aggregate pass), stably sorted by ascending parsed timestamp (sorted,
a permutation of the collected entries, equal-timestamp entries keeping
their collection order), with one point per sorted entry whose cumulative
fields are the prefix sums of the per-entry deltas. -/
theorem claim_C4_group_historic (cfg : Config) (txs : List Tx) :
    ∀ g ∈ (parseTransactions cfg txs).groups,
      ∀ sorted, sorted = sortEntriesByDate (collectGroupEntries
          (parseTransactions cfg txs).tokens
          ((omLookup cfg.groups g.1).getD [])) →
        sorted.Sorted (fun a b => parseDate a.date ≤ parseDate b.date) ∧
        sorted.Perm (collectGroupEntries (parseTransactions cfg txs).tokens
          ((omLookup cfg.groups g.1).getD [])) ∧
        (∀ t, sorted.filter (fun x => parseDate x.date == t) =
          (collectGroupEntries (parseTransactions cfg txs).tokens
            ((omLookup cfg.groups g.1).getD [])).filter
              (fun x => parseDate x.date == t)) ∧
        g.2.historic = (List.range sorted.length).map (groupPointSpec sorted) := by
  intro g hg sorted hsorted
  subst hsorted
  refine ⟨sortEntriesByDate_sorted _, sortEntriesByDate_perm _,
    fun t => sortEntriesByDate_stable _ t, ?_⟩
  rw [parseTransactions_groups_eq] at hg
  rcases List.mem_map.1 hg with ⟨q, hq, rfl⟩
  show buildGroupHistoric _ _ = _
  unfold buildGroupHistoric
  dsimp only
  rw [groupHistScan_eq]

/-- Fixture for the C4 counterexample: the group is configured with the
alias name `"XBT"` of the canonical token `"BTC"`. -/
def cfgC4 : Config :=
  { fiatTokens := ["USD"]
    tokenAliases := [("BTC", ["XBT"])]
    expectedQuantities := []
    groups := [("G", ["XBT"])]
    scenarios := [] }

def txsC4 : List Tx := [depositTx "XBT"]

/-- C4 counterexample: the aggregate pass resolves the member name `"XBT"`
and records `"BTC"` in `group.tokens`, but the historic pass looks the
member up by the raw name and collects nothing — the group historic is
empty although the member token holds one historic entry (the claim's
resolution-aware collection would emit one point). -/
theorem claim_C4_counterexample :
    ((omLookup (parseTransactions cfgC4 txsC4).groups "G").map
      (fun gd => (gd.tokens, gd.historic.length)) = some (["BTC"], 0)) ∧
    (collectGroupEntriesClaim cfgC4 (parseTransactions cfgC4 txsC4).tokens
      ["XBT"]).length = 1 := by
  constructor <;>
    simp [parseTransactions, applyTransaction, updateInvestmentData,
      updateSellData, updateCashOutData, updateFeesData, updateQuantityData,
      quantityLeg, initTokenData, freshTokenData, isFiatInvestmentTransaction,
      isRelevantInvestmentTransaction, resolveTokenAlias, getTokenAliases,
      getTruthyQ, getTruthyS, omLookup, omHas, omModify, omSet, jsSetAdd,
      jsSetOfList, addHistoricEntry, calculatePnlAndUnitPrice,
      finalizeTokenData, buildGroupAggregate, groupAggStep,
      buildGroupHistoric, collectGroupEntries, collectGroupEntriesClaim,
      groupHistStep, sortEntriesByDate, sortInsertEntry, parseDate,
      cfgC4, txsC4, depositTx, wDate1]

/-- Witness for the amended C4 at the concrete one-group portfolio. -/
theorem claim_C4_group_historic_witness :
    ∃ g, g ∈ (parseTransactions cfgW txsW).groups ∧
      g.2.historic = (List.range (sortEntriesByDate (collectGroupEntries
          (parseTransactions cfgW txsW).tokens
          ((omLookup cfgW.groups g.1).getD []))).length).map
        (groupPointSpec (sortEntriesByDate (collectGroupEntries
          (parseTransactions cfgW txsW).tokens
          ((omLookup cfgW.groups g.1).getD [])))) := by
  have hgne : (parseTransactions cfgW txsW).groups ≠ [] := by
    rw [parseTransactions_groups_eq]
    simp [cfgW]
  obtain ⟨g, hg⟩ := List.exists_mem_of_ne_nil _ hgne
  exact ⟨g, hg, (claim_C4_group_historic cfgW txsW g hg _ rfl).2.2.2⟩
